import Mathlib

/-!
# Miden faucet bot: the bounded-concurrency scheduler of `app.js`

A shallow embedding of the scheduling core of `src/app.js`: the per-account worker
(`class MidenBot`), the admission queue (`executionQueue`), the concurrency counter
(`activeBrowsers`) and the pump (`processQueue`).

Conventions of the embedding.

* A worker is referred to by a natural number (its position in `bots`); the JavaScript
  queue holds object references, here it holds these numbers.
* `async runFaucet` is split at its suspension points: the synchronous prologue
  (`runFaucetStart`), the statements of the `try` body that touch the worker
  (`TryStage`), the end of the `try` body or the `catch` block (`runFaucetSettle`), which
  runs up to `await this.browser.close()` in `finally`, and the rest of `finally` after
  that `await` (`runFaucetFinally`: `activeBrowsers--`, `processQueue()`). Between the
  last two, other events can occur. When no browser was launched there is no `await` and
  the two steps follow each other directly, which is one of the orders the model allows.
  The browser itself (Playwright) is outside the model; whether it succeeds or throws is
  the `Outcome` carried by the settle event.
* `Math.random()` is a parameter of type `Draw`, a binary64 number in [0, 1). The
  product `Math.random() * (maxMs - minMs + 1)` is computed exactly and then rounded to
  binary64 (`roundDouble`: to nearest, ties to even) before `Math.floor`. The other
  arithmetic is on integers far below 2^53, where binary64 is exact; `Math.floor` of an
  integer divided by 1000, 60, 3600 or 60000 is integer floor division there.
* `new Date().toLocaleTimeString` is a string parameter `now`, one reading per
  synchronous block.
* `chalk` is modelled by the SGR escape sequences it emits when colours are enabled.
* `setInterval` handles: `countdownInterval = some n` means a live interval whose closure
  variable `remainingSeconds` is `n`; `none` means no live interval.
* History fields of `State` (`inFlight`, `closing`, `enqueued`, `admitted`, `completed`)
  record what the code did: which `runFaucet` calls are pending before their outcome
  (`inFlight`) and after it, waiting in `finally` (`closing`), every `push`, every
  `shift`, every `finally` that ran to its end. The code never reads them.
* Rendering (`blessed`, `refreshDisplay`, `attachUI`, ...) has no effect on the scheduler
  and is left out, as are the immutable fields of a worker (`wallet`, `proxy`, `id`) and
  its browser handle.
* Two sets of reachable states are used. `Reachable` lets `queueStart` be called on any
  worker at any time; `Scheduled` allows only the calls the program makes: `main` on each
  new worker, and the countdown on expiry. The stages of a pending execution may occur in
  any order and its outcome at any time, which only adds behaviours.
* `Cycle` and `MidenBot.cycles` follow one worker through consecutive executions; the
  lemmas `apply_retryCount`, `apply_globalStats` and `cycle_of_events` relate this view to
  the scheduler's events.
-/

namespace Miden

/-! ## Constants -/

/-- Source: `const MAX_RETRIES = 3`. -/
def MAX_RETRIES : Nat := 3

/-- Source: `const RETRY_DELAY_MINUTES = 1`. -/
def RETRY_DELAY_MINUTES : Int := 1

/-- Source: `const MIN_LOOP_MINUTES = 5`. -/
def MIN_LOOP_MINUTES : Int := 5

/-- Source: `const MAX_LOOP_MINUTES = 10`. -/
def MAX_LOOP_MINUTES : Int := 10

/-- Source: `const TARGET_URL`. -/
def TARGET_URL : String := "https://faucet.testnet.miden.io/"

/-- The value of `MAX_CONCURRENT_BROWSERS` as `main` assigns it, from the number of
wallets loaded, before the first `queueStart`: 1 for exactly one wallet, else 4. -/
def MAX_CONCURRENT_BROWSERS (wallets : Nat) : Nat := if wallets = 1 then 1 else 4

/-! ## Strings -/

/-- Substring test on character lists. -/
def includesL : List Char → List Char → Bool
  | [], sub => sub.isEmpty
  | c :: cs, sub => sub.isPrefixOf (c :: cs) || includesL cs sub

/-- JavaScript `s.includes(sub)`. -/
def includes (s sub : String) : Bool := includesL s.toList sub.toList

/-- One `chalk` style: the text between the SGR code that switches the colour on and
the one that resets the foreground. -/
def chalk.style (code : Nat) (s : String) : String :=
  "\x1b[" ++ toString code ++ "m" ++ s ++ "\x1b[39m"

def chalk.red : String → String := chalk.style 31
def chalk.magenta : String → String := chalk.style 35
def chalk.cyan : String → String := chalk.style 36
def chalk.redBright : String → String := chalk.style 91
def chalk.greenBright : String → String := chalk.style 92
def chalk.yellowBright : String → String := chalk.style 93
def chalk.whiteBright : String → String := chalk.style 97

/-! ## Numbers -/

/-- A value `Math.random()` can return: a binary64 number in [0, 1), written as
`mantissa / 2 ^ scale` with a mantissa below 2^53. -/
structure Draw where
  mantissa : Nat
  scale : Nat
  mantissa_lt : mantissa < 2 ^ 53
  lt_one : mantissa < 2 ^ scale

/-- The number a draw stands for. -/
def Draw.val (d : Draw) : ℚ := (d.mantissa : ℚ) / 2 ^ d.scale

/-- The draw 0. -/
def Draw.zero : Draw := ⟨0, 0, by decide, by decide⟩

instance : OfNat Draw 0 := ⟨Draw.zero⟩

/-- The draw 1/2. -/
def Draw.half : Draw := ⟨1, 1, by decide, by decide⟩

/-- The largest draw, 1 - 2^-53. -/
def Draw.largest : Draw := ⟨2 ^ 53 - 1, 53, by decide, by decide⟩

/-- Round to the nearest integer, ties to the even one. -/
def roundHalfEven (q : ℚ) : Int :=
  if q - ⌊q⌋ < 1 / 2 then ⌊q⌋
  else if 1 / 2 < q - ⌊q⌋ then ⌊q⌋ + 1
  else if ⌊q⌋ % 2 = 0 then ⌊q⌋ else ⌊q⌋ + 1

/-- The exponent of the unit in the last place of binary64 at the magnitude of `x`:
52 binary places below the leading bit, and never below the subnormal step. -/
def ulpExponent (x : ℚ) : Int := max (Int.log 2 |x|) (-1022) - 52

/-- IEEE 754 binary64 rounding, to nearest with ties to even, of an exact value (of
magnitude below 2^1024, where binary64 does not overflow). -/
def roundDouble (x : ℚ) : ℚ :=
  (roundHalfEven (x / (2 : ℚ) ^ ulpExponent x) : ℚ) * (2 : ℚ) ^ ulpExponent x

/-! ## The worker -/

/-- The mutable fields of `class MidenBot` that scheduling reads or writes. -/
structure MidenBot where
  status : String
  nextRun : String
  retryCount : Nat
  logs : List String
  countdownInterval : Option Int

/-- The fields as the constructor leaves them. -/
def MidenBot.new : MidenBot :=
  { status := "Idle", nextRun := "Ready", retryCount := 0, logs := [], countdownInterval := none }

/-- Method `updateStatus(newStatus)`. -/
def MidenBot.updateStatus (newStatus : String) (b : MidenBot) : MidenBot :=
  if b.status = newStatus then b else { b with status := newStatus }

/-- The line `addLog(msg)` pushes: the bracketed time, a blank, the message in the colour
chosen by its content. -/
def MidenBot.logLine (time msg : String) : String :=
  let coloredMsg :=
    if includes msg "Cycle completed" then chalk.greenBright msg
    else if includes msg "Error" then chalk.redBright msg
    else if includes msg "Retry" then chalk.yellowBright msg
    else if includes msg "Sleeping" then chalk.magenta msg
    else if includes msg "Launching" then chalk.cyan msg
    else msg
  chalk.whiteBright ("[" ++ time ++ "]") ++ " " ++ coloredMsg

/-- Method `addLog(msg)`: push the line, then `shift` once if the length is above 50. -/
def MidenBot.addLog (time msg : String) (b : MidenBot) : MidenBot :=
  let logs := b.logs ++ [MidenBot.logLine time msg]
  { b with logs := if logs.length > 50 then logs.tail else logs }

/-- A sequence of `addLog` calls, each given as the clock reading and the message. -/
def MidenBot.addLogs (calls : List (String × String)) (b : MidenBot) : MidenBot :=
  calls.foldl (fun b c => b.addLog c.1 c.2) b

/-- Method `updateCountdownText(sec)`. `%` is JavaScript's remainder (sign of the dividend). -/
def MidenBot.updateCountdownText (sec : Int) (b : MidenBot) : MidenBot :=
  let h := sec / 3600
  let m := (Int.tmod sec 3600) / 60
  let s := Int.tmod sec 60
  if h > 0 then { b with nextRun := toString h ++ "h " ++ toString m ++ "m" }
  else { b with nextRun := toString m ++ "m " ++ toString s ++ "s" }

/-- Method `startCountdown(duration)`: the previous interval, if any, is cleared and replaced. -/
def MidenBot.startCountdown (duration : Int) (b : MidenBot) : MidenBot :=
  let remainingSeconds := duration / 1000
  { MidenBot.updateCountdownText remainingSeconds b with
    countdownInterval := some remainingSeconds }

/-- The `waitMs` of `scheduleRetry`. -/
def retryWaitMs : Int := RETRY_DELAY_MINUTES * 60 * 1000

/-- Method `scheduleRetry()`. -/
def MidenBot.scheduleRetry (now : String) (b : MidenBot) : MidenBot :=
  let waitMs := retryWaitMs
  let b := b.updateStatus ("Retry " ++ toString b.retryCount ++ "/" ++ toString MAX_RETRIES)
  let b := b.addLog now ("Retrying in " ++ toString RETRY_DELAY_MINUTES ++ "m...")
  b.startCountdown waitMs

/-- The `waitMs` of `scheduleNextLoop` for the draw `r` of `Math.random()`: the product
is a binary64 number, `Math.floor` and the sum are exact. -/
def loopWaitMs (r : Draw) : Int :=
  let minMs := MIN_LOOP_MINUTES * 60 * 1000
  let maxMs := MAX_LOOP_MINUTES * 60 * 1000
  ⌊roundDouble (r.val * ((maxMs - minMs + 1 : Int) : ℚ))⌋ + minMs

/-- Method `scheduleNextLoop()`. -/
def MidenBot.scheduleNextLoop (now : String) (r : Draw) (b : MidenBot) : MidenBot :=
  let waitMs := loopWaitMs r
  let minutes := waitMs / 60000
  let b := b.updateStatus "Sleeping"
  let b := b.addLog now ("Sleeping for " ++ toString minutes ++ "m...")
  b.startCountdown waitMs

/-- The synchronous prologue of `runFaucet()`, up to the first `await`. -/
def MidenBot.runFaucetStart (now : String) (b : MidenBot) : MidenBot :=
  let b := b.updateStatus "Running Browser"
  b.addLog now ("Launching Chromium (Attempt " ++ toString (b.retryCount + 1) ++ "/"
    ++ toString (MAX_RETRIES + 1) ++ ")...")

/-- The statements of the `try` body of `runFaucet` that touch the worker, one per
stretch between two `await`s, in source order. -/
inductive TryStage where
  | opening
  | waitingForInput
  | typingWallet
  | selectingAmount
  | clickingSend
  | processing
  deriving DecidableEq, Repr

/-- What one stage of the `try` body does to the worker. -/
def MidenBot.tryStage (now : String) (st : TryStage) (b : MidenBot) : MidenBot :=
  match st with
  | .opening => b.addLog now ("Opening " ++ TARGET_URL)
  | .waitingForInput => b.addLog now "Waiting for input..."
  | .typingWallet => b.addLog now "Typing wallet..."
  | .selectingAmount => b.addLog now "Selecting amount (1000)..."
  | .clickingSend => b.addLog now "Clicking SEND..."
  | .processing => (b.updateStatus "Processing").addLog now "Waiting for Proof Generation (60s)..."

/-- The counters of `globalStats`. -/
structure GlobalStats where
  total : Nat
  success : Nat
  waiting : Nat
  errors : Nat
  proxies : Nat
  deriving DecidableEq, Repr

/-- How the `try` body of `runFaucet` ends: it runs to its last statement, or something
in it throws an error with the given message. -/
inductive Outcome where
  | success
  | failure (message : String)
  deriving DecidableEq, Repr

/-- The end of the `try` body of `runFaucet`, from `addLog('Cycle completed.')`. -/
def MidenBot.runFaucetSuccess (now : String) (r : Draw) (p : MidenBot × GlobalStats) :
    MidenBot × GlobalStats :=
  let b := p.1.addLog now "Cycle completed."
  let g := { p.2 with success := p.2.success + 1 }
  let b := { b with retryCount := 0 }
  (b.scheduleNextLoop now r, g)

/-- The `catch` block of `runFaucet`. -/
def MidenBot.runFaucetCatch (now : String) (r : Draw) (message : String)
    (p : MidenBot × GlobalStats) : MidenBot × GlobalStats :=
  let b := p.1.addLog now ("Error: " ++ message.take 45)
  let g := { p.2 with errors := p.2.errors + 1 }
  if b.retryCount < MAX_RETRIES then
    let b := { b with retryCount := b.retryCount + 1 }
    (b.scheduleRetry now, g)
  else
    let b := b.addLog now (chalk.red "Max retries. Sleeping long.")
    let b := { b with retryCount := 0 }
    (b.scheduleNextLoop now r, g)

/-- One execution's effect on its worker and on the counters, by outcome. -/
def MidenBot.runFaucetOutcome (now : String) (r : Draw) (o : Outcome)
    (p : MidenBot × GlobalStats) : MidenBot × GlobalStats :=
  match o with
  | .success => MidenBot.runFaucetSuccess now r p
  | .failure message => MidenBot.runFaucetCatch now r message p

/-! ## The scheduler -/

/-- The module-level scheduler state, with the history fields described above. -/
structure State where
  bots : Nat → MidenBot
  activeBrowsers : Int
  executionQueue : List Nat
  globalStats : GlobalStats
  inFlight : List Nat
  closing : List Nat
  enqueued : List Nat
  admitted : List Nat
  completed : List Nat

/-- The state when `main` starts its `queueStart` loop: every worker as constructed,
nothing queued, nothing running; `total` and `proxies` as `main` has just set them. -/
def State.init (total proxies : Nat) : State :=
  { bots := fun _ => MidenBot.new
    activeBrowsers := 0
    executionQueue := []
    globalStats := { total := total, success := 0, waiting := 0, errors := 0, proxies := proxies }
    inFlight := []
    closing := []
    enqueued := []
    admitted := []
    completed := [] }

/-- Function `processQueue()`, with `cap` the current `MAX_CONCURRENT_BROWSERS`. The call
`bot.runFaucet()` runs the prologue of `runFaucet` and leaves the rest pending. -/
def processQueue (cap : Nat) (now : String) (s : State) : State :=
  if s.activeBrowsers ≥ (cap : Int) then s
  else
    match s.executionQueue with
    | [] => s
    | bot :: rest =>
      { s with
        executionQueue := rest
        activeBrowsers := s.activeBrowsers + 1
        bots := Function.update s.bots bot ((s.bots bot).runFaucetStart now)
        inFlight := bot :: s.inFlight
        admitted := s.admitted ++ [bot] }

/-- The statements of `queueStart()` between its guard and its call of `processQueue()`:
the state in which that call is made. -/
def MidenBot.queueStartPush (now : String) (i : Nat) (s : State) : State :=
  { s with
    bots := Function.update s.bots i
      (((s.bots i).updateStatus "Queued").addLog now "Added to execution queue...")
    executionQueue := s.executionQueue ++ [i]
    enqueued := s.enqueued ++ [i] }

/-- Method `queueStart()` of worker `i`. -/
def MidenBot.queueStart (cap : Nat) (now : String) (i : Nat) (s : State) : State :=
  if includes (s.bots i).status "Waiting" || includes (s.bots i).status "Queued" then s
  else processQueue cap now (MidenBot.queueStartPush now i s)

/-- The first two statements of the countdown callback when the countdown has run out:
`clearInterval`, then `nextRun = 'Ready'`. -/
def MidenBot.countdownExpire (i : Nat) (s : State) : State :=
  { s with
    bots := Function.update s.bots i
      { s.bots i with countdownInterval := none, nextRun := "Ready" } }

/-- The `setInterval` callback installed by `startCountdown`, for worker `i`. With no
live interval the callback does not run. -/
def MidenBot.countdownTick (cap : Nat) (now : String) (i : Nat) (s : State) : State :=
  match (s.bots i).countdownInterval with
  | none => s
  | some remaining =>
    let remainingSeconds := remaining - 1
    if remainingSeconds ≤ 0 then
      MidenBot.queueStart cap now i (MidenBot.countdownExpire i s)
    else
      { s with
        bots := Function.update s.bots i
          (MidenBot.updateCountdownText remainingSeconds
            { s.bots i with countdownInterval := some remainingSeconds }) }

/-- One stage of the `try` body of a pending `runFaucet` of worker `i`. -/
def MidenBot.runFaucetStage (now : String) (st : TryStage) (i : Nat) (s : State) : State :=
  { s with bots := Function.update s.bots i ((s.bots i).tryStage now st) }

/-- The end of a pending `runFaucet` of worker `i` up to the `await` in `finally`: the
last statements of the `try` body, or the `catch` block. The execution keeps its slot
and waits for `browser.close()`. -/
def MidenBot.runFaucetSettle (now : String) (r : Draw) (o : Outcome) (i : Nat) (s : State) :
    State :=
  { s with
    bots := Function.update s.bots i
      (MidenBot.runFaucetOutcome now r o (s.bots i, s.globalStats)).1
    globalStats := (MidenBot.runFaucetOutcome now r o (s.bots i, s.globalStats)).2
    inFlight := s.inFlight.erase i
    closing := i :: s.closing }

/-- The statement `activeBrowsers--` of `finally`, for an execution of worker `i` whose
`browser.close()` has returned: the state in which `finally` calls `processQueue()`. -/
def MidenBot.runFaucetRelease (i : Nat) (s : State) : State :=
  { s with
    activeBrowsers := s.activeBrowsers - 1
    closing := s.closing.erase i
    completed := s.completed ++ [i] }

/-- The rest of `finally` after the `await`: `activeBrowsers--`, then `processQueue()`. -/
def MidenBot.runFaucetFinally (cap : Nat) (now : String) (i : Nat) (s : State) : State :=
  processQueue cap now (MidenBot.runFaucetRelease i s)

/-! ## Events and reachable states -/

/-- What can happen to the scheduler: a call of `queueStart`, a tick of a worker's
countdown interval, a stage of a pending execution, the outcome of a pending execution
(`finish`), the return of `browser.close()` in `finally` (`release`). -/
inductive Event where
  | queueStart (now : String) (i : Nat)
  | tick (now : String) (i : Nat)
  | stage (now : String) (st : TryStage) (i : Nat)
  | finish (now : String) (r : Draw) (o : Outcome) (i : Nat)
  | release (now : String) (i : Nat)

/-- The effect of an event. -/
def Event.apply (cap : Nat) (e : Event) (s : State) : State :=
  match e with
  | .queueStart now i => MidenBot.queueStart cap now i s
  | .tick now i => MidenBot.countdownTick cap now i s
  | .stage now st i => MidenBot.runFaucetStage now st i s
  | .finish now r o i => MidenBot.runFaucetSettle now r o i s
  | .release now i => MidenBot.runFaucetFinally cap now i s

/-- When an event can occur, `queueStart` being callable on any worker at any time:
a tick needs a live interval, a stage or an outcome needs an execution whose `try` body
is running, a release needs an execution waiting in `finally`. -/
def Event.enabled (e : Event) (s : State) : Prop :=
  match e with
  | .queueStart _ _ => True
  | .tick _ i => (s.bots i).countdownInterval ≠ none
  | .stage _ _ i => i ∈ s.inFlight
  | .finish _ _ _ i => i ∈ s.inFlight
  | .release _ i => i ∈ s.closing

/-- When an event can occur in the program as written: `queueStart` is called directly
only by `main`, once on each worker, right after constructing it (status `Idle`); every
other call of `queueStart` is the one inside the countdown tick. -/
def Event.scheduled (e : Event) (s : State) : Prop :=
  match e with
  | .queueStart _ i => (s.bots i).status = "Idle"
  | .tick _ i => (s.bots i).countdownInterval ≠ none
  | .stage _ _ i => i ∈ s.inFlight
  | .finish _ _ _ i => i ∈ s.inFlight
  | .release _ i => i ∈ s.closing

instance (e : Event) (s : State) : Decidable (e.enabled s) := by
  cases e <;> unfold Event.enabled <;> infer_instance

instance (e : Event) (s : State) : Decidable (e.scheduled s) := by
  cases e <;> unfold Event.scheduled <;> infer_instance

/-- The worker whose slot an event releases, if it releases one. -/
def Event.released : Event → Option Nat
  | .release _ i => some i
  | _ => none

/-- Run a list of events in order. -/
def run (cap : Nat) (es : List Event) (s : State) : State :=
  es.foldl (fun s e => e.apply cap s) s

/-- States reachable from an initial state by enabled events, `queueStart` unrestricted. -/
inductive Reachable (cap : Nat) : State → Prop where
  | init (total proxies : Nat) : Reachable cap (State.init total proxies)
  | step {s : State} (e : Event) : Reachable cap s → e.enabled s → Reachable cap (e.apply cap s)

/-- States reachable from an initial state by the events of the program as written. -/
inductive Scheduled (cap : Nat) : State → Prop where
  | init (total proxies : Nat) : Scheduled cap (State.init total proxies)
  | step {s : State} (e : Event) : Scheduled cap s → e.scheduled s → Scheduled cap (e.apply cap s)

/-- Every event of the list is enabled when its turn comes, `queueStart` unrestricted. -/
def admissible (cap : Nat) : List Event → State → Prop
  | [], _ => True
  | e :: es, s => e.enabled s ∧ admissible cap es (e.apply cap s)

/-- Every event of the list can occur, when its turn comes, in the program as written. -/
def planned (cap : Nat) : List Event → State → Prop
  | [], _ => True
  | e :: es, s => e.scheduled s ∧ planned cap es (e.apply cap s)

instance admissible.decidable (cap : Nat) : ∀ (es : List Event) (s : State),
    Decidable (admissible cap es s)
  | [], _ => isTrue trivial
  | e :: es, s =>
    have := admissible.decidable cap es (e.apply cap s)
    inferInstanceAs (Decidable (e.enabled s ∧ admissible cap es (e.apply cap s)))

instance planned.decidable (cap : Nat) : ∀ (es : List Event) (s : State),
    Decidable (planned cap es s)
  | [], _ => isTrue trivial
  | e :: es, s =>
    have := planned.decidable cap es (e.apply cap s)
    inferInstanceAs (Decidable (e.scheduled s ∧ planned cap es (e.apply cap s)))

/-! ## One worker's executions in a row -/

/-- What happens to a worker between the end of one execution and the start of its
next, or before its first: the countdown, if one is live, reaches zero (interval cleared,
`nextRun` set to `Ready`) and `queueStart` marks the worker `Queued` and logs it. -/
def MidenBot.requeue (now : String) (b : MidenBot) : MidenBot :=
  (MidenBot.updateStatus "Queued"
    { b with countdownInterval := none, nextRun := "Ready" }).addLog now
      "Added to execution queue..."

/-- One cycle of a worker: the clock readings when it is queued, when it is admitted and
when its execution ends, the draw of `Math.random()` and the outcome. -/
structure Cycle where
  queuedAt : String
  startedAt : String
  endedAt : String
  draw : Draw
  outcome : Outcome

/-- One cycle as seen by its worker and the counters: queued, then the prologue of
`runFaucet()`, then the end of `try` or the `catch` block. -/
def MidenBot.cycle (x : Cycle) (p : MidenBot × GlobalStats) : MidenBot × GlobalStats :=
  MidenBot.runFaucetOutcome x.endedAt x.draw x.outcome
    ((p.1.requeue x.queuedAt).runFaucetStart x.startedAt, p.2)

/-- Consecutive cycles of one worker. -/
def MidenBot.cycles (runs : List Cycle) (p : MidenBot × GlobalStats) :
    MidenBot × GlobalStats :=
  runs.foldl (fun p x => MidenBot.cycle x p) p

/-- The outcome is a thrown error. -/
def Outcome.isFailure : Outcome → Bool
  | .success => false
  | .failure _ => true

/-- The number of workers one call of `processQueue` admits in state `s`, as a formula:
at most one, at most the queue length, at most the free slots. -/
def admissions (cap : Nat) (s : State) : Nat :=
  min 1 (min s.executionQueue.length (cap - s.activeBrowsers).toNat)

/-- The number of workers the pump admits according to the specification:
min(queue length, `MAX_CONCURRENT_BROWSERS` - `activeBrowsers`). -/
def drainCount (cap : Nat) (s : State) : Nat :=
  min s.executionQueue.length (cap - s.activeBrowsers).toNat

/-- The states in which the program calls `processQueue()`: in `queueStart` after the
push, whether `queueStart` is called directly or by a countdown that has run out, and in
`finally` after `activeBrowsers--`. -/
inductive PumpCall (cap : Nat) : State → Prop where
  | queueStart {s : State} (now : String) (i : Nat) : Reachable cap s →
      ¬ (includes (s.bots i).status "Waiting" || includes (s.bots i).status "Queued") = true →
      PumpCall cap (MidenBot.queueStartPush now i s)
  | expiry {s : State} (now : String) (i : Nat) (remaining : Int) : Reachable cap s →
      (s.bots i).countdownInterval = some remaining → remaining - 1 ≤ 0 →
      ¬ (includes ((MidenBot.countdownExpire i s).bots i).status "Waiting" ||
          includes ((MidenBot.countdownExpire i s).bots i).status "Queued") = true →
      PumpCall cap (MidenBot.queueStartPush now i (MidenBot.countdownExpire i s))
  | release {s : State} (i : Nat) : Reachable cap s → i ∈ s.closing →
      PumpCall cap (MidenBot.runFaucetRelease i s)

/-! ## Invariants -/

/-- The counter mirrors the pending executions, stays within the ceiling, and the
histories are consistent with the queue. -/
structure Inv (cap : Nat) (s : State) : Prop where
  active_eq : s.activeBrowsers = ((s.inFlight.length + s.closing.length : Nat) : Int)
  le_cap : s.inFlight.length + s.closing.length ≤ cap
  fifo : s.enqueued = s.admitted ++ s.executionQueue
  balance : s.admitted.length = s.completed.length + s.closing.length + s.inFlight.length
  tally : ∀ w, s.admitted.count w
    = s.completed.count w + s.closing.count w + s.inFlight.count w

/-- A worker is in at most one of: the queue, an execution whose `try` body is running,
a live countdown. (An execution waiting in `finally` excludes none of them.) -/
structure Exclusive (s : State) : Prop where
  queued : ∀ i ∈ s.executionQueue,
    (s.bots i).status = "Queued" ∧ (s.bots i).countdownInterval = none ∧ i ∉ s.inFlight
  queue_nodup : s.executionQueue.Nodup
  running : ∀ i ∈ s.inFlight,
    ((s.bots i).status = "Running Browser" ∨ (s.bots i).status = "Processing") ∧
      (s.bots i).countdownInterval = none
  running_nodup : s.inFlight.Nodup
  idle : ∀ i, (s.bots i).status = "Idle" → (s.bots i).countdownInterval = none

/-- A worker waits only when every slot is taken. -/
def Busy (cap : Nat) (s : State) : Prop :=
  s.executionQueue ≠ [] → s.inFlight.length + s.closing.length = cap

end Miden

namespace Miden

/-! ## Rounding to binary64 -/

theorem roundHalfEven_ge {q : ℚ} {n : Int} (h : (n : ℚ) ≤ q) : n ≤ roundHalfEven q := by
  have hf : n ≤ ⌊q⌋ := Int.le_floor.mpr h
  unfold roundHalfEven
  split_ifs <;> omega

theorem roundHalfEven_le {q : ℚ} {n : Int} (h : q ≤ (n : ℚ)) : roundHalfEven q ≤ n := by
  have hf : ⌊q⌋ ≤ n := Int.cast_le.mp ((Int.floor_le q).trans h)
  unfold roundHalfEven
  by_cases h1 : q - ⌊q⌋ < 1 / 2
  · rw [if_pos h1]; exact hf
  · have hlt : (⌊q⌋ : ℚ) < n := by linarith
    have hlt' : ⌊q⌋ < n := by exact_mod_cast hlt
    rw [if_neg h1]
    split_ifs <;> omega

theorem roundHalfEven_le_pred {q : ℚ} {n : Int} (h : q < (n : ℚ) - 1 / 2) :
    roundHalfEven q ≤ n - 1 := by
  have hfl := Int.floor_le q
  unfold roundHalfEven
  by_cases h1 : q - ⌊q⌋ < 1 / 2
  · rw [if_pos h1]
    have hlt : (⌊q⌋ : ℚ) < n := by linarith
    have hlt' : ⌊q⌋ < n := by exact_mod_cast hlt
    omega
  · have hlt : (⌊q⌋ : ℚ) + 1 < n := by linarith
    have hlt' : ⌊q⌋ + 1 < n := by exact_mod_cast hlt
    rw [if_neg h1]
    split_ifs <;> omega

theorem roundHalfEven_eq {q : ℚ} {n : Int} (h1 : (n : ℚ) - 1 / 2 < q) (h2 : q ≤ (n : ℚ)) :
    roundHalfEven q = n := by
  apply le_antisymm (roundHalfEven_le h2)
  by_cases hq : q = n
  · exact roundHalfEven_ge (le_of_eq hq.symm)
  · have hlt : q < n := lt_of_le_of_ne h2 hq
    have hf : ⌊q⌋ = n - 1 := by
      rw [Int.floor_eq_iff]
      push_cast
      constructor <;> linarith
    unfold roundHalfEven
    have h3 : ¬ q - ⌊q⌋ < 1 / 2 := by rw [hf]; push_cast; linarith
    have h4 : 1 / 2 < q - ⌊q⌋ := by rw [hf]; push_cast; linarith
    rw [if_neg h3, if_pos h4, hf]
    omega

theorem Draw.val_nonneg (d : Draw) : 0 ≤ d.val := by
  unfold Draw.val
  positivity

theorem Draw.val_le (d : Draw) : d.val ≤ 1 - 1 / 2 ^ 53 := by
  unfold Draw.val
  have hm := d.mantissa_lt
  have hk := d.lt_one
  have hpos : (0 : ℚ) < 2 ^ d.scale := by positivity
  rw [div_le_iff₀ hpos]
  by_cases hs : d.scale ≤ 53
  · -- the draw is a multiple of 2^-53
    have h1 : (d.mantissa : ℚ) + 1 ≤ 2 ^ d.scale := by exact_mod_cast hk
    have h2 : (2 : ℚ) ^ d.scale ≤ 2 ^ 53 := by
      exact_mod_cast Nat.pow_le_pow_right (by norm_num) hs
    have h3 : (2 : ℚ) ^ d.scale / 2 ^ 53 ≤ 1 := by
      rw [div_le_one (by positivity)]; exact h2
    have : (1 - 1 / 2 ^ 53) * (2 : ℚ) ^ d.scale = 2 ^ d.scale - 2 ^ d.scale / 2 ^ 53 := by ring
    rw [this]
    linarith
  · have h1 : (d.mantissa : ℚ) + 1 ≤ 2 ^ 53 := by exact_mod_cast hm
    have h2 : (2 : ℚ) ^ 54 ≤ 2 ^ d.scale := by
      exact_mod_cast Nat.pow_le_pow_right (by norm_num) (by omega : 54 ≤ d.scale)
    have h3 : (1 : ℚ) / 2 ≤ 1 - 1 / 2 ^ 53 := by norm_num
    have h4 : (2 : ℚ) ^ 53 = 2 ^ 54 / 2 := by norm_num
    nlinarith

theorem Draw.val_lt_one (d : Draw) : d.val < 1 := by
  have := d.val_le
  have h : (0 : ℚ) < 1 / 2 ^ 53 := by positivity
  linarith

theorem roundDouble_nonneg {x : ℚ} (hx : 0 ≤ x) : 0 ≤ roundDouble x := by
  unfold roundDouble
  have hu : (0 : ℚ) < 2 ^ ulpExponent x := by positivity
  have h0 : ((0 : Int) : ℚ) ≤ x / 2 ^ ulpExponent x := by
    simp only [Int.cast_zero]; positivity
  have := roundHalfEven_ge h0
  have h1 : (0 : ℚ) ≤ (roundHalfEven (x / 2 ^ ulpExponent x) : ℚ) := by exact_mod_cast this
  positivity

theorem log_of_binade {x : ℚ} (hx : 0 < x) (e : Int) (h1 : (2 : ℚ) ^ e ≤ x)
    (h2 : x < (2 : ℚ) ^ (e + 1)) : Int.log 2 x = e := by
  apply le_antisymm
  · have : Int.log 2 x < e + 1 := by
      rw [← Int.lt_zpow_iff_log_lt (by norm_num) hx]
      exact_mod_cast h2
    omega
  · rw [← Int.zpow_le_iff_le_log (by norm_num) hx]
    exact_mod_cast h1

theorem ulpExponent_top_binade {x : ℚ} (h1 : (2 : ℚ) ^ (18 : Int) ≤ x)
    (h2 : x < (2 : ℚ) ^ (19 : Int)) : ulpExponent x = -34 := by
  have hx : 0 < x := lt_of_lt_of_le (by positivity) h1
  unfold ulpExponent
  rw [abs_of_pos hx, log_of_binade hx 18 h1 (by simpa using h2)]
  rfl

/-- Below `2 ^ 18` a value rounds to at most `2 ^ 18`. -/
theorem roundDouble_le_of_lt {x : ℚ} (hx0 : 0 ≤ x) (h : x < (2 : ℚ) ^ (18 : Int)) :
    roundDouble x ≤ (2 : ℚ) ^ (18 : Int) := by
  rcases hx0.eq_or_lt with h0 | hpos
  · rw [← h0]
    have : roundDouble 0 = 0 := by simp [roundDouble, roundHalfEven]
    rw [this]; positivity
  · have hlog : Int.log 2 x < 18 := by
      rw [← Int.lt_zpow_iff_log_lt (by norm_num) hpos]
      exact_mod_cast h
    have hup : x < (2 : ℚ) ^ (Int.log 2 x + 1) := by
      exact_mod_cast Int.lt_zpow_succ_log_self (b := 2) (by norm_num) x
    have he : ulpExponent x = max (Int.log 2 x) (-1022) - 52 := by
      unfold ulpExponent; rw [abs_of_pos hpos]
    have hu : (0 : ℚ) < 2 ^ ulpExponent x := by positivity
    have hq : x / 2 ^ ulpExponent x ≤ ((2 ^ 53 : Int) : ℚ) := by
      rw [div_le_iff₀ hu]
      have h53 : ((2 ^ 53 : Int) : ℚ) = (2 : ℚ) ^ (53 : Int) := by norm_num
      rw [h53, ← zpow_add₀ (by norm_num : (2 : ℚ) ≠ 0)]
      refine le_trans hup.le ?_
      apply zpow_le_zpow_right₀ (by norm_num)
      rw [he]; omega
    have hr := roundHalfEven_le hq
    have hr' : (roundHalfEven (x / 2 ^ ulpExponent x) : ℚ) ≤ (2 : ℚ) ^ (53 : Int) := by
      have : (roundHalfEven (x / 2 ^ ulpExponent x) : ℚ) ≤ ((2 ^ 53 : Int) : ℚ) := by
        exact_mod_cast hr
      have h53 : ((2 ^ 53 : Int) : ℚ) = (2 : ℚ) ^ (53 : Int) := by norm_num
      rw [← h53]; exact this
    unfold roundDouble
    calc (roundHalfEven (x / 2 ^ ulpExponent x) : ℚ) * 2 ^ ulpExponent x
        ≤ (2 : ℚ) ^ (53 : Int) * 2 ^ ulpExponent x := by
          exact mul_le_mul_of_nonneg_right hr' hu.le
      _ = (2 : ℚ) ^ (53 + ulpExponent x) := by
          rw [zpow_add₀ (by norm_num : (2 : ℚ) ≠ 0)]
      _ ≤ (2 : ℚ) ^ (18 : Int) := by
          apply zpow_le_zpow_right₀ (by norm_num)
          rw [he]; omega

theorem roundDouble_top_binade {x : ℚ} (h1 : (2 : ℚ) ^ (18 : Int) ≤ x)
    (h2 : x < (2 : ℚ) ^ (19 : Int)) :
    roundDouble x = (roundHalfEven (x * 2 ^ 34) : ℚ) / 2 ^ 34 := by
  unfold roundDouble
  rw [ulpExponent_top_binade h1 h2]
  have h34 : (2 : ℚ) ^ (-34 : Int) = 1 / 2 ^ 34 := by norm_num
  rw [h34]
  have hx : x / (1 / 2 ^ 34) = x * 2 ^ 34 := by field_simp
  rw [hx]
  ring

/-- The rounding margin below 300001: the product of 300001 and a draw rounds to a
double below 300001. -/
theorem roundDouble_product_lt {x : ℚ} (hx0 : 0 ≤ x)
    (hx : x ≤ 300001 * (1 - 1 / 2 ^ 53)) : roundDouble x < 300001 := by
  by_cases h18 : x < (2 : ℚ) ^ (18 : Int)
  · have := roundDouble_le_of_lt hx0 h18
    have h : (2 : ℚ) ^ (18 : Int) < 300001 := by norm_num
    linarith
  · have h1 : (2 : ℚ) ^ (18 : Int) ≤ x := not_lt.mp h18
    have h2 : x < (2 : ℚ) ^ (19 : Int) := by
      have : (300001 : ℚ) * (1 - 1 / 2 ^ 53) < (2 : ℚ) ^ (19 : Int) := by norm_num
      linarith
    rw [roundDouble_top_binade h1 h2]
    have hq : x * 2 ^ 34 < ((300001 * 2 ^ 34 : Int) : ℚ) - 1 / 2 := by
      have : (300001 : ℚ) * (1 - 1 / 2 ^ 53) * 2 ^ 34
          < ((300001 * 2 ^ 34 : Int) : ℚ) - 1 / 2 := by norm_num
      have h34 : (0 : ℚ) < 2 ^ 34 := by positivity
      nlinarith
    have hr := roundHalfEven_le_pred hq
    have hr' : (roundHalfEven (x * 2 ^ 34) : ℚ) ≤ 300001 * 2 ^ 34 - 1 := by
      have : (roundHalfEven (x * 2 ^ 34) : ℚ) ≤ ((300001 * 2 ^ 34 - 1 : Int) : ℚ) := by
        exact_mod_cast hr
      refine this.trans (le_of_eq ?_)
      norm_num
    rw [div_lt_iff₀ (by positivity)]
    linarith

theorem roundDouble_product_ge {x : ℚ} (h1 : 300000 ≤ x) (h2 : x < 300001) :
    300000 ≤ roundDouble x := by
  have hb1 : (2 : ℚ) ^ (18 : Int) ≤ x := by
    have : (2 : ℚ) ^ (18 : Int) ≤ 300000 := by norm_num
    linarith
  have hb2 : x < (2 : ℚ) ^ (19 : Int) := by
    have : (300001 : ℚ) < (2 : ℚ) ^ (19 : Int) := by norm_num
    linarith
  rw [roundDouble_top_binade hb1 hb2]
  have hq : ((300000 * 2 ^ 34 : Int) : ℚ) ≤ x * 2 ^ 34 := by
    have h34 : (0 : ℚ) < 2 ^ 34 := by positivity
    have : ((300000 * 2 ^ 34 : Int) : ℚ) = 300000 * 2 ^ 34 := by norm_num
    rw [this]
    nlinarith
  have hr := roundHalfEven_ge hq
  have hr' : (300000 : ℚ) * 2 ^ 34 ≤ (roundHalfEven (x * 2 ^ 34) : ℚ) := by
    have : ((300000 * 2 ^ 34 : Int) : ℚ) ≤ (roundHalfEven (x * 2 ^ 34) : ℚ) := by
      exact_mod_cast hr
    refine le_trans (le_of_eq ?_) this
    norm_num
  rw [le_div_iff₀ (by positivity)]
  exact hr'

/-! ## Counting occurrences -/

theorem count_cons_nat (l : List Nat) (i w : Nat) :
    (i :: l).count w = l.count w + (if w = i then 1 else 0) := by
  by_cases e : w = i
  · subst e; simp
  · have e' : i ≠ w := fun h => e h.symm
    simp [List.count_cons, e, e']

theorem count_snoc_nat (l : List Nat) (i w : Nat) :
    (l ++ [i]).count w = l.count w + (if w = i then 1 else 0) := by
  rw [List.count_append, count_cons_nat]
  simp

theorem count_erase_nat (l : List Nat) (i w : Nat) (hi : i ∈ l) :
    (l.erase i).count w + (if w = i then 1 else 0) = l.count w := by
  have hp : 0 < l.count i := List.count_pos_iff.mpr hi
  by_cases e : w = i
  · subst e; simp only [List.count_erase_self, if_true]; omega
  · simp [List.count_erase_of_ne e, e]

/-! ## Field lemmas for the worker's methods -/

@[simp] theorem updateStatus_status (n : String) (b : MidenBot) :
    (b.updateStatus n).status = n := by
  unfold MidenBot.updateStatus
  split <;> simp_all

@[simp] theorem updateStatus_retryCount (n : String) (b : MidenBot) :
    (b.updateStatus n).retryCount = b.retryCount := by
  unfold MidenBot.updateStatus
  split <;> rfl

@[simp] theorem updateStatus_countdownInterval (n : String) (b : MidenBot) :
    (b.updateStatus n).countdownInterval = b.countdownInterval := by
  unfold MidenBot.updateStatus
  split <;> rfl

@[simp] theorem updateStatus_logs (n : String) (b : MidenBot) :
    (b.updateStatus n).logs = b.logs := by
  unfold MidenBot.updateStatus
  split <;> rfl

@[simp] theorem addLog_status (t m : String) (b : MidenBot) :
    (b.addLog t m).status = b.status := rfl

@[simp] theorem addLog_retryCount (t m : String) (b : MidenBot) :
    (b.addLog t m).retryCount = b.retryCount := rfl

@[simp] theorem addLog_countdownInterval (t m : String) (b : MidenBot) :
    (b.addLog t m).countdownInterval = b.countdownInterval := rfl

theorem addLog_logs (t m : String) (b : MidenBot) :
    (b.addLog t m).logs =
      (b.logs ++ [MidenBot.logLine t m]).drop (if 50 < b.logs.length + 1 then 1 else 0) := by
  unfold MidenBot.addLog
  simp only [List.length_append, List.length_singleton, gt_iff_lt]
  split <;> simp

theorem addLog_logs_length_le (t m : String) (b : MidenBot) (h : b.logs.length ≤ 50) :
    (b.addLog t m).logs.length ≤ 50 := by
  rw [addLog_logs]
  split <;> simp <;> omega

theorem addLogs_logs (calls : List (String × String)) :
    ∀ b : MidenBot, b.logs.length ≤ 50 →
      (b.addLogs calls).logs =
        (b.logs ++ calls.map (fun c => MidenBot.logLine c.1 c.2)).drop
          (b.logs.length + calls.length - 50) := by
  induction calls with
  | nil =>
    intro b h
    have h0 : b.logs.length + ([] : List (String × String)).length - 50 = 0 := by
      simp only [List.length_nil]; omega
    rw [h0]
    simp [MidenBot.addLogs]
  | cons c cs ih =>
    intro b h
    have hstep : (b.addLogs (c :: cs)) = (b.addLog c.1 c.2).addLogs cs := rfl
    rw [hstep, ih _ (addLog_logs_length_le _ _ b h), addLog_logs]
    have hk : (if 50 < b.logs.length + 1 then 1 else 0) ≤ (b.logs ++ [MidenBot.logLine c.1 c.2]).length := by
      split <;> simp
    rw [← List.drop_append_of_le_length hk, List.drop_drop]
    have hlen : (List.drop (if 50 < b.logs.length + 1 then 1 else 0)
        (b.logs ++ [MidenBot.logLine c.1 c.2])).length
        = b.logs.length + 1 - (if 50 < b.logs.length + 1 then 1 else 0) := by
      simp
    rw [hlen]
    have hl : b.logs ++ [MidenBot.logLine c.1 c.2] ++ List.map (fun c => MidenBot.logLine c.1 c.2) cs
        = b.logs ++ List.map (fun c => MidenBot.logLine c.1 c.2) (c :: cs) := by
      simp
    rw [hl]
    congr 1
    simp only [List.length_cons]
    split <;> omega

@[simp] theorem updateCountdownText_status (sec : Int) (b : MidenBot) :
    (b.updateCountdownText sec).status = b.status := by
  unfold MidenBot.updateCountdownText
  dsimp only
  split <;> rfl

@[simp] theorem updateCountdownText_retryCount (sec : Int) (b : MidenBot) :
    (b.updateCountdownText sec).retryCount = b.retryCount := by
  unfold MidenBot.updateCountdownText
  dsimp only
  split <;> rfl

@[simp] theorem updateCountdownText_countdownInterval (sec : Int) (b : MidenBot) :
    (b.updateCountdownText sec).countdownInterval = b.countdownInterval := by
  unfold MidenBot.updateCountdownText
  dsimp only
  split <;> rfl

@[simp] theorem startCountdown_status (d : Int) (b : MidenBot) :
    (b.startCountdown d).status = b.status := by
  simp [MidenBot.startCountdown]

@[simp] theorem startCountdown_retryCount (d : Int) (b : MidenBot) :
    (b.startCountdown d).retryCount = b.retryCount := by
  simp [MidenBot.startCountdown]

@[simp] theorem startCountdown_countdownInterval (d : Int) (b : MidenBot) :
    (b.startCountdown d).countdownInterval = some (d / 1000) := by
  simp [MidenBot.startCountdown]

@[simp] theorem scheduleRetry_status (now : String) (b : MidenBot) :
    (b.scheduleRetry now).status
      = "Retry " ++ toString b.retryCount ++ "/" ++ toString MAX_RETRIES := by
  simp [MidenBot.scheduleRetry]

@[simp] theorem scheduleRetry_retryCount (now : String) (b : MidenBot) :
    (b.scheduleRetry now).retryCount = b.retryCount := by
  simp [MidenBot.scheduleRetry]

@[simp] theorem scheduleRetry_countdownInterval (now : String) (b : MidenBot) :
    (b.scheduleRetry now).countdownInterval = some (retryWaitMs / 1000) := by
  simp [MidenBot.scheduleRetry]

@[simp] theorem scheduleNextLoop_status (now : String) (r : Draw) (b : MidenBot) :
    (b.scheduleNextLoop now r).status = "Sleeping" := by
  simp [MidenBot.scheduleNextLoop]

@[simp] theorem scheduleNextLoop_retryCount (now : String) (r : Draw) (b : MidenBot) :
    (b.scheduleNextLoop now r).retryCount = b.retryCount := by
  simp [MidenBot.scheduleNextLoop]

@[simp] theorem scheduleNextLoop_countdownInterval (now : String) (r : Draw) (b : MidenBot) :
    (b.scheduleNextLoop now r).countdownInterval = some (loopWaitMs r / 1000) := by
  simp [MidenBot.scheduleNextLoop]

@[simp] theorem runFaucetStart_status (now : String) (b : MidenBot) :
    (b.runFaucetStart now).status = "Running Browser" := by
  simp [MidenBot.runFaucetStart]

@[simp] theorem runFaucetStart_retryCount (now : String) (b : MidenBot) :
    (b.runFaucetStart now).retryCount = b.retryCount := by
  simp [MidenBot.runFaucetStart]

@[simp] theorem runFaucetStart_countdownInterval (now : String) (b : MidenBot) :
    (b.runFaucetStart now).countdownInterval = b.countdownInterval := by
  simp [MidenBot.runFaucetStart]

theorem tryStage_status (now : String) (st : TryStage) (b : MidenBot) :
    (b.tryStage now st).status = b.status ∨ (b.tryStage now st).status = "Processing" := by
  cases st <;> simp [MidenBot.tryStage]

@[simp] theorem tryStage_countdownInterval (now : String) (st : TryStage) (b : MidenBot) :
    (b.tryStage now st).countdownInterval = b.countdownInterval := by
  cases st <;> simp [MidenBot.tryStage]

@[simp] theorem tryStage_retryCount (now : String) (st : TryStage) (b : MidenBot) :
    (b.tryStage now st).retryCount = b.retryCount := by
  cases st <;> simp [MidenBot.tryStage]

theorem retryLabel_ne_idle (x y : String) : "Retry " ++ x ++ "/" ++ y ≠ "Idle" := by
  intro h
  have h2 := congrArg String.data h
  simp [String.data_append] at h2

theorem runFaucetOutcome_status_ne_idle (now : String) (r : Draw) (o : Outcome)
    (p : MidenBot × GlobalStats) : (MidenBot.runFaucetOutcome now r o p).1.status ≠ "Idle" := by
  cases o with
  | success =>
    simp only [MidenBot.runFaucetOutcome, MidenBot.runFaucetSuccess, scheduleNextLoop_status]
    decide
  | failure message =>
    simp only [MidenBot.runFaucetOutcome, MidenBot.runFaucetCatch]
    split
    · simp only [scheduleRetry_status]
      exact retryLabel_ne_idle _ _
    · simp only [scheduleNextLoop_status]
      decide

theorem runFaucetOutcome_countdownInterval (now : String) (r : Draw) (o : Outcome)
    (p : MidenBot × GlobalStats) :
    (MidenBot.runFaucetOutcome now r o p).1.countdownInterval ≠ none := by
  cases o with
  | success =>
    simp [MidenBot.runFaucetOutcome, MidenBot.runFaucetSuccess]
  | failure message =>
    simp only [MidenBot.runFaucetOutcome, MidenBot.runFaucetCatch]
    split <;> simp

/-! ## The pump, case by case -/

theorem processQueue_full (cap : Nat) (now : String) (s : State)
    (h : (cap : Int) ≤ s.activeBrowsers) : processQueue cap now s = s := by
  unfold processQueue
  rw [if_pos h]

theorem processQueue_nil (cap : Nat) (now : String) (s : State)
    (h : s.executionQueue = []) : processQueue cap now s = s := by
  unfold processQueue
  split
  · rfl
  · rw [h]

theorem processQueue_cons (cap : Nat) (now : String) (s : State) (bot : Nat) (rest : List Nat)
    (hcap : s.activeBrowsers < (cap : Int)) (hq : s.executionQueue = bot :: rest) :
    processQueue cap now s =
      { s with
        executionQueue := rest
        activeBrowsers := s.activeBrowsers + 1
        bots := Function.update s.bots bot ((s.bots bot).runFaucetStart now)
        inFlight := bot :: s.inFlight
        admitted := s.admitted ++ [bot] } := by
  unfold processQueue
  rw [if_neg (by omega)]
  rw [hq]

/-- The three ways `processQueue` can go. -/
theorem processQueue_cases (cap : Nat) (now : String) (s : State) :
    (processQueue cap now s = s ∧ ((cap : Int) ≤ s.activeBrowsers ∨ s.executionQueue = [])) ∨
    ∃ bot rest, s.executionQueue = bot :: rest ∧ s.activeBrowsers < (cap : Int) ∧
      processQueue cap now s =
        { s with
          executionQueue := rest
          activeBrowsers := s.activeBrowsers + 1
          bots := Function.update s.bots bot ((s.bots bot).runFaucetStart now)
          inFlight := bot :: s.inFlight
          admitted := s.admitted ++ [bot] } := by
  by_cases hcap : (cap : Int) ≤ s.activeBrowsers
  · exact Or.inl ⟨processQueue_full cap now s hcap, Or.inl hcap⟩
  · cases hq : s.executionQueue with
    | nil => exact Or.inl ⟨processQueue_nil cap now s hq, Or.inr rfl⟩
    | cons bot rest =>
      exact Or.inr ⟨bot, rest, rfl, by omega, processQueue_cons cap now s bot rest (by omega) hq⟩

/-! ## Counting invariant: holds whoever calls `queueStart` -/

theorem Inv.init_inv (cap total proxies : Nat) : Inv cap (State.init total proxies) :=
  ⟨rfl, Nat.zero_le _, rfl, rfl, fun _ => rfl⟩

theorem Inv.setBots {cap : Nat} {s : State} (h : Inv cap s) (f : Nat → MidenBot) :
    Inv cap { s with bots := f } :=
  ⟨h.active_eq, h.le_cap, h.fifo, h.balance, h.tally⟩

theorem Inv.processQueue_inv {cap : Nat} {s : State} (h : Inv cap s) (now : String) :
    Inv cap (processQueue cap now s) := by
  rcases processQueue_cases cap now s with ⟨heq, _⟩ | ⟨bot, rest, hq, hlt, heq⟩
  · rw [heq]; exact h
  · rw [heq]
    have ha := h.active_eq
    have hb := h.balance
    refine ⟨?_, ?_, ?_, ?_, ?_⟩
    · show s.activeBrowsers + 1 = (((bot :: s.inFlight).length + s.closing.length : Nat) : Int)
      simp only [List.length_cons]; omega
    · show (bot :: s.inFlight).length + s.closing.length ≤ cap
      simp only [List.length_cons]; omega
    · simp [h.fifo, hq]
    · show (s.admitted ++ [bot]).length
        = s.completed.length + s.closing.length + (bot :: s.inFlight).length
      simp only [List.length_append, List.length_cons, List.length_nil]; omega
    · intro w
      have ht := h.tally w
      show (s.admitted ++ [bot]).count w
        = s.completed.count w + s.closing.count w + (bot :: s.inFlight).count w
      rw [count_snoc_nat, count_cons_nat]; omega

theorem Inv.push_inv {cap : Nat} {s : State} (h : Inv cap s) (i : Nat) (f : Nat → MidenBot) :
    Inv cap { s with bots := f, executionQueue := s.executionQueue ++ [i],
                     enqueued := s.enqueued ++ [i] } := by
  refine ⟨h.active_eq, h.le_cap, ?_, h.balance, h.tally⟩
  simp [h.fifo]

theorem Inv.queueStartPush_inv {cap : Nat} {s : State} (h : Inv cap s) (now : String)
    (i : Nat) : Inv cap (MidenBot.queueStartPush now i s) :=
  h.push_inv i _

theorem Inv.queueStart_inv {cap : Nat} {s : State} (h : Inv cap s) (now : String) (i : Nat) :
    Inv cap (MidenBot.queueStart cap now i s) := by
  unfold MidenBot.queueStart
  split
  · exact h
  · exact (h.queueStartPush_inv now i).processQueue_inv now

theorem Inv.countdownExpire_inv {cap : Nat} {s : State} (h : Inv cap s) (i : Nat) :
    Inv cap (MidenBot.countdownExpire i s) :=
  h.setBots _

theorem Inv.countdownTick_inv {cap : Nat} {s : State} (h : Inv cap s) (now : String) (i : Nat) :
    Inv cap (MidenBot.countdownTick cap now i s) := by
  unfold MidenBot.countdownTick
  split
  · exact h
  · dsimp only
    split
    · exact (h.countdownExpire_inv i).queueStart_inv now i
    · exact h.setBots _

theorem Inv.runFaucetSettle_inv {cap : Nat} {s : State} (h : Inv cap s) (now : String)
    (r : Draw) (o : Outcome) {i : Nat} (hi : i ∈ s.inFlight) :
    Inv cap (MidenBot.runFaucetSettle now r o i s) := by
  have hpos : 0 < s.inFlight.length := List.length_pos_of_mem hi
  have ha := h.active_eq
  have hb := h.balance
  have hc := h.le_cap
  have hlen : (s.inFlight.erase i).length = s.inFlight.length - 1 :=
    List.length_erase_of_mem hi
  refine ⟨?_, ?_, h.fifo, ?_, ?_⟩
  · show s.activeBrowsers
      = (((s.inFlight.erase i).length + (i :: s.closing).length : Nat) : Int)
    simp only [List.length_cons]; omega
  · show (s.inFlight.erase i).length + (i :: s.closing).length ≤ cap
    simp only [List.length_cons]; omega
  · show s.admitted.length
      = s.completed.length + (i :: s.closing).length + (s.inFlight.erase i).length
    simp only [List.length_cons]; omega
  · intro w
    have ht := h.tally w
    have he := count_erase_nat s.inFlight i w hi
    show s.admitted.count w
      = s.completed.count w + (i :: s.closing).count w + (s.inFlight.erase i).count w
    rw [count_cons_nat]; omega

theorem Inv.runFaucetRelease_inv {cap : Nat} {s : State} (h : Inv cap s) {i : Nat}
    (hi : i ∈ s.closing) : Inv cap (MidenBot.runFaucetRelease i s) := by
  have hpos : 0 < s.closing.length := List.length_pos_of_mem hi
  have ha := h.active_eq
  have hb := h.balance
  have hc := h.le_cap
  have hlen : (s.closing.erase i).length = s.closing.length - 1 :=
    List.length_erase_of_mem hi
  refine ⟨?_, ?_, h.fifo, ?_, ?_⟩
  · show s.activeBrowsers - 1
      = ((s.inFlight.length + (s.closing.erase i).length : Nat) : Int)
    omega
  · show s.inFlight.length + (s.closing.erase i).length ≤ cap
    omega
  · show s.admitted.length
      = (s.completed ++ [i]).length + (s.closing.erase i).length + s.inFlight.length
    simp only [List.length_append, List.length_cons, List.length_nil]; omega
  · intro w
    have ht := h.tally w
    have he := count_erase_nat s.closing i w hi
    show s.admitted.count w
      = (s.completed ++ [i]).count w + (s.closing.erase i).count w + s.inFlight.count w
    rw [count_snoc_nat]; omega

theorem Inv.apply_inv {cap : Nat} {s : State} (h : Inv cap s) (e : Event) (he : e.enabled s) :
    Inv cap (e.apply cap s) := by
  cases e with
  | queueStart now i => exact h.queueStart_inv now i
  | tick now i => exact h.countdownTick_inv now i
  | stage now st i => exact h.setBots _
  | finish now r o i => exact h.runFaucetSettle_inv now r o he
  | release now i => exact (h.runFaucetRelease_inv he).processQueue_inv now

theorem Reachable.inv {cap : Nat} {s : State} (h : Reachable cap s) : Inv cap s := by
  induction h with
  | init total proxies => exact Inv.init_inv cap total proxies
  | step e _ he ih => exact ih.apply_inv e he

theorem Scheduled.reachable {cap : Nat} {s : State} (h : Scheduled cap s) : Reachable cap s := by
  induction h with
  | init total proxies => exact Reachable.init total proxies
  | step e _ he ih =>
    refine Reachable.step e ih ?_
    cases e <;> trivial

/-! ## Exclusivity invariant: holds for the program as written -/

theorem Exclusive.init_excl (total proxies : Nat) : Exclusive (State.init total proxies) := by
  refine ⟨?_, List.nodup_nil, ?_, List.nodup_nil, ?_⟩
  · intro i hi; cases hi
  · intro i hi; cases hi
  · intro i _; rfl

theorem Exclusive.not_mem_queue_of_running {s : State} (h : Exclusive s) {i : Nat}
    (hi : i ∈ s.inFlight) : i ∉ s.executionQueue :=
  fun hq => (h.queued i hq).2.2 hi

theorem Exclusive.parked_of_countdown {s : State} (h : Exclusive s) {i : Nat}
    (hi : (s.bots i).countdownInterval ≠ none) :
    i ∉ s.executionQueue ∧ i ∉ s.inFlight ∧ (s.bots i).status ≠ "Idle" :=
  ⟨fun hq => hi (h.queued i hq).2.1, fun hr => hi (h.running i hr).2, fun hs => hi (h.idle i hs)⟩

/-- Replacing the record of a worker that is neither queued nor running. -/
theorem Exclusive.setParked {s : State} (h : Exclusive s) {i : Nat} (nb : MidenBot)
    (hq : i ∉ s.executionQueue) (hr : i ∉ s.inFlight)
    (hidle : nb.status = "Idle" → nb.countdownInterval = none) :
    Exclusive { s with bots := Function.update s.bots i nb } := by
  refine ⟨?_, h.queue_nodup, ?_, h.running_nodup, ?_⟩
  · intro j hj
    have hne : j ≠ i := fun e => hq (e ▸ hj)
    simpa [Function.update_noteq hne] using h.queued j hj
  · intro j hj
    have hne : j ≠ i := fun e => hr (e ▸ hj)
    simpa [Function.update_noteq hne] using h.running j hj
  · intro j
    by_cases e : j = i
    · subst e; simpa using hidle
    · simpa [Function.update_noteq e] using h.idle j

/-- Replacing the record of a running worker by one that is still running. -/
theorem Exclusive.setRunning {s : State} (h : Exclusive s) {i : Nat} (nb : MidenBot)
    (hr : i ∈ s.inFlight)
    (hst : nb.status = "Running Browser" ∨ nb.status = "Processing")
    (hcd : nb.countdownInterval = none) :
    Exclusive { s with bots := Function.update s.bots i nb } := by
  have hq : i ∉ s.executionQueue := h.not_mem_queue_of_running hr
  refine ⟨?_, h.queue_nodup, ?_, h.running_nodup, ?_⟩
  · intro j hj
    have hne : j ≠ i := fun e => hq (e ▸ hj)
    simpa [Function.update_noteq hne] using h.queued j hj
  · intro j hj
    by_cases e : j = i
    · subst e; simpa using ⟨hst, hcd⟩
    · simpa [Function.update_noteq e] using h.running j hj
  · intro j
    by_cases e : j = i
    · subst e; intro _; simpa using hcd
    · simpa [Function.update_noteq e] using h.idle j

/-- Appending to the queue a worker that is neither queued nor running, with status
`Queued` and no live countdown. -/
theorem Exclusive.push_excl {s : State} (h : Exclusive s) {i : Nat} (nb : MidenBot)
    (hq : i ∉ s.executionQueue) (hr : i ∉ s.inFlight)
    (hst : nb.status = "Queued") (hcd : nb.countdownInterval = none) :
    Exclusive { s with bots := Function.update s.bots i nb,
                       executionQueue := s.executionQueue ++ [i],
                       enqueued := s.enqueued ++ [i] } := by
  refine ⟨?_, ?_, ?_, h.running_nodup, ?_⟩
  · intro j hj
    by_cases e : j = i
    · subst e; simpa using ⟨hst, hcd, hr⟩
    · have hj2 : j ∈ s.executionQueue := by
        rcases List.mem_append.mp hj with h1 | h1
        · exact h1
        · exact absurd (List.mem_singleton.mp h1) e
      simpa [Function.update_noteq e] using h.queued j hj2
  · show (s.executionQueue ++ [i]).Nodup
    rw [List.nodup_append]
    refine ⟨h.queue_nodup, List.nodup_singleton i, ?_⟩
    intro a ha hb
    rw [List.mem_singleton] at hb
    subst hb
    exact hq ha
  · intro j hj
    have hne : j ≠ i := fun e => hr (e ▸ hj)
    simpa [Function.update_noteq hne] using h.running j hj
  · intro j
    by_cases e : j = i
    · subst e; intro _; simpa using hcd
    · simpa [Function.update_noteq e] using h.idle j

theorem Exclusive.processQueue_excl {s : State} (h : Exclusive s) (cap : Nat) (now : String) :
    Exclusive (processQueue cap now s) := by
  rcases processQueue_cases cap now s with ⟨heq, _⟩ | ⟨bot, rest, hq, _, heq⟩
  · rw [heq]; exact h
  · rw [heq]
    have hnd : (bot :: rest).Nodup := hq ▸ h.queue_nodup
    have hbot : bot ∈ s.executionQueue := by rw [hq]; exact List.mem_cons_self _ _
    have hbq := h.queued bot hbot
    have hrest : ∀ j ∈ rest, j ≠ bot := fun j hj e =>
      (List.nodup_cons.mp hnd).1 (e ▸ hj)
    refine ⟨?_, (List.nodup_cons.mp hnd).2, ?_, ?_, ?_⟩
    · intro j hj
      have hne := hrest j hj
      have hjq : j ∈ s.executionQueue := by rw [hq]; exact List.mem_cons_of_mem _ hj
      have := h.queued j hjq
      simp only [Function.update_noteq hne, List.mem_cons, not_or]
      exact ⟨this.1, this.2.1, hne, this.2.2⟩
    · intro j hj
      by_cases e : j = bot
      · subst e; simpa using hbq.2.1
      · have hj2 : j ∈ s.inFlight := by
          rcases List.mem_cons.mp hj with h1 | h1
          · exact absurd h1 e
          · exact h1
        simpa [Function.update_noteq e] using h.running j hj2
    · exact List.nodup_cons.mpr ⟨hbq.2.2, h.running_nodup⟩
    · intro j
      by_cases e : j = bot
      · subst e; intro _; simpa using hbq.2.1
      · simpa [Function.update_noteq e] using h.idle j

theorem Exclusive.queueStart_excl {s : State} (h : Exclusive s) (cap : Nat) (now : String) {i : Nat}
    (hq : i ∉ s.executionQueue) (hr : i ∉ s.inFlight)
    (hcd : (s.bots i).countdownInterval = none) :
    Exclusive (MidenBot.queueStart cap now i s) := by
  unfold MidenBot.queueStart
  split
  · exact h
  · exact Exclusive.processQueue_excl
      (s := MidenBot.queueStartPush now i s)
      (h.push_excl _ hq hr (by simp) (by simpa using hcd)) cap now

theorem Exclusive.queueStart_idle {s : State} (h : Exclusive s) (cap : Nat) (now : String)
    {i : Nat} (hidle : (s.bots i).status = "Idle") :
    Exclusive (MidenBot.queueStart cap now i s) := by
  refine h.queueStart_excl cap now ?_ ?_ (h.idle i hidle)
  · intro hq
    have := (h.queued i hq).1
    rw [hidle] at this
    exact absurd this (by decide)
  · intro hr
    have := (h.running i hr).1
    rw [hidle] at this
    rcases this with h1 | h1 <;> exact absurd h1 (by decide)

theorem Exclusive.countdownTick_excl {s : State} (h : Exclusive s) (cap : Nat) (now : String)
    (i : Nat) : Exclusive (MidenBot.countdownTick cap now i s) := by
  unfold MidenBot.countdownTick
  split
  · exact h
  · rename_i remaining hrem
    have hlive : (s.bots i).countdownInterval ≠ none := by rw [hrem]; simp
    obtain ⟨hq, hr, hni⟩ := h.parked_of_countdown hlive
    dsimp only
    split
    · refine Exclusive.queueStart_excl (s := MidenBot.countdownExpire i s)
        (h.setParked _ hq hr (fun _ => rfl)) cap now hq hr ?_
      simp [MidenBot.countdownExpire]
    · refine h.setParked _ hq hr ?_
      intro hst
      rw [updateCountdownText_status] at hst
      exact absurd hst hni

theorem Exclusive.runFaucetStage {s : State} (h : Exclusive s) (now : String) (st : TryStage)
    {i : Nat} (hi : i ∈ s.inFlight) : Exclusive (MidenBot.runFaucetStage now st i s) := by
  refine h.setRunning _ hi ?_ ?_
  · rcases tryStage_status now st (s.bots i) with h1 | h1
    · rw [h1]; exact (h.running i hi).1
    · exact Or.inr h1
  · simpa using (h.running i hi).2

theorem Exclusive.runFaucetSettle_excl {s : State} (h : Exclusive s) (now : String)
    (r : Draw) (o : Outcome) {i : Nat} (hi : i ∈ s.inFlight) :
    Exclusive (MidenBot.runFaucetSettle now r o i s) := by
  have hq : i ∉ s.executionQueue := h.not_mem_queue_of_running hi
  refine ⟨?_, h.queue_nodup, ?_, h.running_nodup.erase i, ?_⟩
  · intro j hj
    have hne : j ≠ i := fun e => hq (e ▸ hj)
    have := h.queued j hj
    simp only [MidenBot.runFaucetSettle, Function.update_noteq hne]
    exact ⟨this.1, this.2.1, fun hm => this.2.2 (List.mem_of_mem_erase hm)⟩
  · intro j hj
    have hj2 : j ∈ s.inFlight.erase i := hj
    rw [h.running_nodup.mem_erase_iff] at hj2
    simp only [MidenBot.runFaucetSettle, Function.update_noteq hj2.1]
    exact h.running j hj2.2
  · intro j
    by_cases e : j = i
    · subst e
      intro hst
      simp only [MidenBot.runFaucetSettle, Function.update_same] at hst
      exact absurd hst (runFaucetOutcome_status_ne_idle now r o _)
    · simpa [MidenBot.runFaucetSettle, Function.update_noteq e] using h.idle j

theorem Exclusive.runFaucetRelease_excl {s : State} (h : Exclusive s) (i : Nat) :
    Exclusive (MidenBot.runFaucetRelease i s) :=
  ⟨h.queued, h.queue_nodup, h.running, h.running_nodup, h.idle⟩

theorem Exclusive.apply_excl {s : State} (h : Exclusive s) (cap : Nat) (e : Event)
    (he : e.scheduled s) : Exclusive (e.apply cap s) := by
  cases e with
  | queueStart now i => exact h.queueStart_idle cap now he
  | tick now i => exact h.countdownTick_excl cap now i
  | stage now st i => exact h.runFaucetStage now st he
  | finish now r o i => exact h.runFaucetSettle_excl now r o he
  | release now i => exact (h.runFaucetRelease_excl i).processQueue_excl cap now

theorem Scheduled.exclusive {cap : Nat} {s : State} (h : Scheduled cap s) : Exclusive s := by
  induction h with
  | init total proxies => exact Exclusive.init_excl total proxies
  | step e _ he ih => exact ih.apply_excl cap e he

theorem processQueue_completed (cap : Nat) (now : String) (s : State) :
    (processQueue cap now s).completed = s.completed := by
  rcases processQueue_cases cap now s with ⟨heq, _⟩ | ⟨bot, rest, _, _, heq⟩ <;> rw [heq]

theorem processQueue_count_le (cap : Nat) (now : String) (s : State) (i : Nat) :
    (processQueue cap now s).executionQueue.count i ≤ s.executionQueue.count i := by
  rcases processQueue_cases cap now s with ⟨heq, _⟩ | ⟨bot, rest, hq, _, heq⟩
  · rw [heq]
  · rw [heq, hq]
    exact (List.sublist_cons_self bot rest).count_le i

theorem queueStart_of_guard (cap : Nat) (now : String) (i : Nat) (s : State)
    (h : (includes (s.bots i).status "Waiting" || includes (s.bots i).status "Queued") = true) :
    MidenBot.queueStart cap now i s = s := by
  unfold MidenBot.queueStart
  rw [if_pos h]

theorem queueStart_of_not_guard (cap : Nat) (now : String) (i : Nat) (s : State)
    (h : ¬ (includes (s.bots i).status "Waiting" || includes (s.bots i).status "Queued") = true) :
    MidenBot.queueStart cap now i s
      = processQueue cap now (MidenBot.queueStartPush now i s) := by
  unfold MidenBot.queueStart
  rw [if_neg h]

/-! ## One execution seen from its worker -/

theorem retryWaitMs_seconds : retryWaitMs / 1000 = RETRY_DELAY_MINUTES * 60 := by decide

@[simp] theorem requeue_retryCount (now : String) (b : MidenBot) :
    (b.requeue now).retryCount = b.retryCount := by
  simp [MidenBot.requeue]

theorem cycle_failure_retry (x : Cycle) (p : MidenBot × GlobalStats)
    (hx : x.outcome.isFailure = true) (h : p.1.retryCount < MAX_RETRIES) :
    (MidenBot.cycle x p).1.retryCount = p.1.retryCount + 1 ∧
    (MidenBot.cycle x p).1.countdownInterval = some (RETRY_DELAY_MINUTES * 60) ∧
    (MidenBot.cycle x p).2.errors = p.2.errors + 1 ∧
    (MidenBot.cycle x p).2.success = p.2.success := by
  cases ho : x.outcome with
  | success => rw [ho] at hx; simp [Outcome.isFailure] at hx
  | failure message =>
    have h2 : (((p.1.requeue x.queuedAt).runFaucetStart x.startedAt).addLog x.endedAt
        ("Error: " ++ message.take 45)).retryCount < MAX_RETRIES := by simpa using h
    simp only [MidenBot.cycle, ho, MidenBot.runFaucetOutcome, MidenBot.runFaucetCatch, if_pos h2]
    simp [retryWaitMs_seconds]

theorem cycle_failure_exhausted (x : Cycle) (p : MidenBot × GlobalStats)
    (hx : x.outcome.isFailure = true) (h : ¬ p.1.retryCount < MAX_RETRIES) :
    (MidenBot.cycle x p).1.retryCount = 0 ∧
    (MidenBot.cycle x p).1.status = "Sleeping" ∧
    (MidenBot.cycle x p).1.countdownInterval = some (loopWaitMs x.draw / 1000) ∧
    (MidenBot.cycle x p).2.errors = p.2.errors + 1 ∧
    (MidenBot.cycle x p).2.success = p.2.success := by
  cases ho : x.outcome with
  | success => rw [ho] at hx; simp [Outcome.isFailure] at hx
  | failure message =>
    have h2 : ¬ (((p.1.requeue x.queuedAt).runFaucetStart x.startedAt).addLog x.endedAt
        ("Error: " ++ message.take 45)).retryCount < MAX_RETRIES := by simpa using h
    simp only [MidenBot.cycle, ho, MidenBot.runFaucetOutcome, MidenBot.runFaucetCatch, if_neg h2]
    simp

theorem cycle_success (x : Cycle) (p : MidenBot × GlobalStats) (hx : x.outcome = .success) :
    (MidenBot.cycle x p).1.retryCount = 0 ∧
    (MidenBot.cycle x p).1.status = "Sleeping" ∧
    (MidenBot.cycle x p).1.countdownInterval = some (loopWaitMs x.draw / 1000) ∧
    (MidenBot.cycle x p).2.errors = p.2.errors ∧
    (MidenBot.cycle x p).2.success = p.2.success + 1 := by
  simp [MidenBot.cycle, hx, MidenBot.runFaucetOutcome, MidenBot.runFaucetSuccess]

theorem cycles_snoc (runs : List Cycle) (x : Cycle) (p : MidenBot × GlobalStats) :
    MidenBot.cycles (runs ++ [x]) p = MidenBot.cycle x (MidenBot.cycles runs p) := by
  simp [MidenBot.cycles, List.foldl_append]

/-- Failures in a row, as long as the retry ceiling is not passed: each one counts one
error and one retry. -/
theorem cycles_failures (fails : List Cycle) :
    ∀ p : MidenBot × GlobalStats, (∀ x ∈ fails, x.outcome.isFailure = true) →
      p.1.retryCount + fails.length ≤ MAX_RETRIES →
      (MidenBot.cycles fails p).1.retryCount = p.1.retryCount + fails.length ∧
      (MidenBot.cycles fails p).2.errors = p.2.errors + fails.length ∧
      (MidenBot.cycles fails p).2.success = p.2.success := by
  induction fails with
  | nil => intro p _ _; exact ⟨rfl, rfl, rfl⟩
  | cons x xs ih =>
    intro p hf hlen
    simp only [List.length_cons] at hlen
    have hx : x.outcome.isFailure = true := hf x (List.mem_cons_self _ _)
    have hlt : p.1.retryCount < MAX_RETRIES := by omega
    have hstep := cycle_failure_retry x p hx hlt
    have hrec := ih (MidenBot.cycle x p)
      (fun y hy => hf y (List.mem_cons_of_mem _ hy)) (by rw [hstep.1]; omega)
    have hunf : MidenBot.cycles (x :: xs) p = MidenBot.cycles xs (MidenBot.cycle x p) := rfl
    rw [hunf]
    obtain ⟨h1, h2, h3⟩ := hrec
    obtain ⟨g1, _, g2, g3⟩ := hstep
    simp only [List.length_cons]
    refine ⟨by omega, by omega, by rw [h3, g3]⟩

/-! ## The randomized delay -/

theorem loopWaitMs_eq (r : Draw) :
    loopWaitMs r = ⌊roundDouble (r.val * 300001)⌋ + 300000 := by
  simp [loopWaitMs, MIN_LOOP_MINUTES, MAX_LOOP_MINUTES]

theorem product_le (r : Draw) : r.val * 300001 ≤ 300001 * (1 - 1 / 2 ^ 53) := by
  have := r.val_le
  linarith

theorem loopWaitMs_bounds (r : Draw) :
    MIN_LOOP_MINUTES * 60 * 1000 ≤ loopWaitMs r ∧
      loopWaitMs r ≤ MAX_LOOP_MINUTES * 60 * 1000 := by
  rw [loopWaitMs_eq]
  have hx0 : 0 ≤ r.val * 300001 := mul_nonneg r.val_nonneg (by norm_num)
  have hfl0 : 0 ≤ ⌊roundDouble (r.val * 300001)⌋ :=
    Int.floor_nonneg.mpr (roundDouble_nonneg hx0)
  have hfl1 : ⌊roundDouble (r.val * 300001)⌋ < 300001 := by
    rw [Int.floor_lt]
    push_cast
    exact roundDouble_product_lt hx0 (product_le r)
  simp only [MIN_LOOP_MINUTES, MAX_LOOP_MINUTES]
  constructor <;> omega

theorem loopWaitMs_of_ge (r : Draw) (h : (300000 : ℚ) / 300001 ≤ r.val) :
    loopWaitMs r = MAX_LOOP_MINUTES * 60 * 1000 := by
  have hhi := (loopWaitMs_bounds r).2
  have h1 : (300000 : ℚ) ≤ r.val * 300001 := by
    rw [div_le_iff₀ (by norm_num)] at h
    exact h
  have h2 : r.val * 300001 < 300001 := by
    have := r.val_lt_one
    linarith
  have hfl : (300000 : Int) ≤ ⌊roundDouble (r.val * 300001)⌋ := by
    rw [Int.le_floor]
    push_cast
    exact roundDouble_product_ge h1 h2
  rw [loopWaitMs_eq] at hhi ⊢
  simp only [MAX_LOOP_MINUTES] at hhi ⊢
  omega

theorem loopWaitMs_zero : loopWaitMs 0 = MIN_LOOP_MINUTES * 60 * 1000 := by
  have h0 : (0 : Draw).val = 0 := by
    show (((0 : Nat) : ℚ)) / 2 ^ 0 = 0
    norm_num
  rw [loopWaitMs_eq, h0]
  have : roundDouble (0 * 300001) = 0 := by simp [roundDouble, roundHalfEven]
  rw [this]
  simp [MIN_LOOP_MINUTES]

/-- Rounding matters: at this draw the exact product is below 300000, so its floor is
299999, while the binary64 product is 300000 and the delay is the full ten minutes. -/
theorem loopWaitMs_rounds_up :
    ⌊(⟨9007169230843555, 53, by decide, by decide⟩ : Draw).val * 300001⌋ = 299999 ∧
    loopWaitMs ⟨9007169230843555, 53, by decide, by decide⟩ = 600000 := by
  have hv : (⟨9007169230843555, 53, by decide, by decide⟩ : Draw).val
      = (9007169230843555 : ℚ) / 2 ^ 53 := by
    show ((9007169230843555 : Nat) : ℚ) / 2 ^ 53 = _
    norm_num
  rw [loopWaitMs_eq, hv]
  constructor
  · rw [Int.floor_eq_iff]
    constructor <;> norm_num
  · have h1 : (2 : ℚ) ^ (18 : Int) ≤ 9007169230843555 / 2 ^ 53 * 300001 := by norm_num
    have h2 : (9007169230843555 : ℚ) / 2 ^ 53 * 300001 < (2 : ℚ) ^ (19 : Int) := by norm_num
    rw [roundDouble_top_binade h1 h2]
    have hr : roundHalfEven (9007169230843555 / 2 ^ 53 * 300001 * 2 ^ 34)
        = 300000 * 2 ^ 34 := by
      apply roundHalfEven_eq <;> norm_num
    rw [hr]
    norm_num

/-! ## No free slot while a worker waits -/

theorem Busy.processQueue_busy {cap : Nat} {s : State} (hinv : Inv cap s) (now : String)
    (h : s.executionQueue ≠ [] →
      s.inFlight.length + s.closing.length = cap ∨
        s.inFlight.length + s.closing.length + 1 = cap ∨ s.executionQueue.length = 1) :
    Busy cap (processQueue cap now s) := by
  have ha := hinv.active_eq
  have hc := hinv.le_cap
  rcases processQueue_cases cap now s with ⟨heq, hwhy⟩ | ⟨bot, rest, hq, hlt, heq⟩
  · rw [heq]
    intro hne
    rcases hwhy with h1 | h1
    · omega
    · exact absurd h1 hne
  · rw [heq]
    intro hne
    have hne2 : rest ≠ [] := hne
    show (bot :: s.inFlight).length + s.closing.length = cap
    simp only [List.length_cons]
    rcases h (by rw [hq]; exact List.cons_ne_nil _ _) with h1 | h1 | h1
    · omega
    · omega
    · rw [hq] at h1
      simp only [List.length_cons] at h1
      exact absurd (List.length_eq_zero.mp (by omega)) hne2

/-- After the push of `queueStart`, at most one worker can be admitted. -/
theorem queueStartPush_almost {cap : Nat} {s : State} (h : Busy cap s) (now : String)
    (i : Nat) :
    (MidenBot.queueStartPush now i s).executionQueue ≠ [] →
      (MidenBot.queueStartPush now i s).inFlight.length
          + (MidenBot.queueStartPush now i s).closing.length = cap ∨
        (MidenBot.queueStartPush now i s).inFlight.length
          + (MidenBot.queueStartPush now i s).closing.length + 1 = cap ∨
        (MidenBot.queueStartPush now i s).executionQueue.length = 1 := by
  intro _
  by_cases hq : s.executionQueue = []
  · right; right
    show (s.executionQueue ++ [i]).length = 1
    rw [hq]; rfl
  · left; exact h hq

/-- After the decrement of `finally`, at most one worker can be admitted. -/
theorem runFaucetRelease_almost {cap : Nat} {s : State} (h : Busy cap s) {i : Nat}
    (hi : i ∈ s.closing) :
    (MidenBot.runFaucetRelease i s).executionQueue ≠ [] →
      (MidenBot.runFaucetRelease i s).inFlight.length
          + (MidenBot.runFaucetRelease i s).closing.length = cap ∨
        (MidenBot.runFaucetRelease i s).inFlight.length
          + (MidenBot.runFaucetRelease i s).closing.length + 1 = cap ∨
        (MidenBot.runFaucetRelease i s).executionQueue.length = 1 := by
  intro hne
  have hpos : 0 < s.closing.length := List.length_pos_of_mem hi
  have hlen : (s.closing.erase i).length = s.closing.length - 1 :=
    List.length_erase_of_mem hi
  have hfull : s.inFlight.length + s.closing.length = cap := h hne
  right; left
  show s.inFlight.length + (s.closing.erase i).length + 1 = cap
  omega

theorem Busy.queueStart_busy {cap : Nat} {s : State} (hinv : Inv cap s) (h : Busy cap s)
    (now : String) (i : Nat) : Busy cap (MidenBot.queueStart cap now i s) := by
  unfold MidenBot.queueStart
  split
  · exact h
  · exact Busy.processQueue_busy (hinv.queueStartPush_inv now i) now
      (queueStartPush_almost h now i)

theorem Busy.countdownTick_busy {cap : Nat} {s : State} (hinv : Inv cap s) (h : Busy cap s)
    (now : String) (i : Nat) : Busy cap (MidenBot.countdownTick cap now i s) := by
  unfold MidenBot.countdownTick
  split
  · exact h
  · dsimp only
    split
    · refine Busy.queueStart_busy (hinv.countdownExpire_inv i) ?_ now i
      exact h
    · exact h

theorem Busy.runFaucetFinally_busy {cap : Nat} {s : State} (hinv : Inv cap s)
    (h : Busy cap s) (now : String) {i : Nat} (hi : i ∈ s.closing) :
    Busy cap (MidenBot.runFaucetFinally cap now i s) :=
  Busy.processQueue_busy (hinv.runFaucetRelease_inv hi) now (runFaucetRelease_almost h hi)

theorem Busy.runFaucetSettle_busy {cap : Nat} {s : State} (h : Busy cap s)
    (now : String) (r : Draw) (o : Outcome) {i : Nat} (hi : i ∈ s.inFlight) :
    Busy cap (MidenBot.runFaucetSettle now r o i s) := by
  intro hne
  have hpos : 0 < s.inFlight.length := List.length_pos_of_mem hi
  have hlen : (s.inFlight.erase i).length = s.inFlight.length - 1 :=
    List.length_erase_of_mem hi
  have hfull : s.inFlight.length + s.closing.length = cap := h hne
  show (s.inFlight.erase i).length + (i :: s.closing).length = cap
  simp only [List.length_cons]
  omega

theorem Reachable.busy {cap : Nat} {s : State} (h : Reachable cap s) : Busy cap s := by
  induction h with
  | init total proxies => intro hne; exact absurd rfl hne
  | step e hs he ih =>
    cases e with
    | queueStart now i => exact Busy.queueStart_busy hs.inv ih now i
    | tick now i => exact Busy.countdownTick_busy hs.inv ih now i
    | stage now st i => exact ih
    | finish now r o i => exact Busy.runFaucetSettle_busy ih now r o he
    | release now i => exact Busy.runFaucetFinally_busy hs.inv ih now he

/-! ## What an event changes of a worker's retry count and of the counters -/

theorem processQueue_retryCount (cap : Nat) (now : String) (s : State) (j : Nat) :
    ((processQueue cap now s).bots j).retryCount = (s.bots j).retryCount := by
  rcases processQueue_cases cap now s with ⟨heq, _⟩ | ⟨bot, rest, _, _, heq⟩
  · rw [heq]
  · rw [heq]
    by_cases e : j = bot
    · subst e; simp
    · simp [Function.update_noteq e]

theorem processQueue_globalStats (cap : Nat) (now : String) (s : State) :
    (processQueue cap now s).globalStats = s.globalStats := by
  rcases processQueue_cases cap now s with ⟨heq, _⟩ | ⟨bot, rest, _, _, heq⟩ <;> rw [heq]

theorem queueStart_retryCount (cap : Nat) (now : String) (i : Nat) (s : State) (j : Nat) :
    ((MidenBot.queueStart cap now i s).bots j).retryCount = (s.bots j).retryCount := by
  unfold MidenBot.queueStart
  split
  · rfl
  · rw [processQueue_retryCount]
    by_cases e : j = i
    · subst e; simp [MidenBot.queueStartPush]
    · simp [MidenBot.queueStartPush, Function.update_noteq e]

theorem queueStart_globalStats (cap : Nat) (now : String) (i : Nat) (s : State) :
    (MidenBot.queueStart cap now i s).globalStats = s.globalStats := by
  unfold MidenBot.queueStart
  split
  · rfl
  · rw [processQueue_globalStats]
    rfl

theorem countdownTick_retryCount (cap : Nat) (now : String) (i : Nat) (s : State) (j : Nat) :
    ((MidenBot.countdownTick cap now i s).bots j).retryCount = (s.bots j).retryCount := by
  unfold MidenBot.countdownTick
  split
  · rfl
  · dsimp only
    split
    · rw [queueStart_retryCount]
      by_cases e : j = i
      · subst e; simp [MidenBot.countdownExpire]
      · simp [MidenBot.countdownExpire, Function.update_noteq e]
    · by_cases e : j = i
      · subst e; simp
      · simp [Function.update_noteq e]

theorem countdownTick_globalStats (cap : Nat) (now : String) (i : Nat) (s : State) :
    (MidenBot.countdownTick cap now i s).globalStats = s.globalStats := by
  unfold MidenBot.countdownTick
  split
  · rfl
  · dsimp only
    split
    · rw [queueStart_globalStats]
      rfl
    · rfl

/-- Only the outcome of a worker's own execution changes its `retryCount`, and it does
so as one cycle does. -/
theorem apply_retryCount (cap : Nat) (e : Event) (s : State) (j : Nat) :
    ((e.apply cap s).bots j).retryCount =
      match e with
      | .finish now r o i =>
        if j = i then (MidenBot.runFaucetOutcome now r o (s.bots j, s.globalStats)).1.retryCount
        else (s.bots j).retryCount
      | _ => (s.bots j).retryCount := by
  cases e with
  | queueStart now i => exact queueStart_retryCount cap now i s j
  | tick now i => exact countdownTick_retryCount cap now i s j
  | stage now st i =>
    show ((MidenBot.runFaucetStage now st i s).bots j).retryCount = _
    by_cases e : j = i
    · subst e; simp [MidenBot.runFaucetStage]
    · simp [MidenBot.runFaucetStage, Function.update_noteq e]
  | finish now r o i =>
    show ((MidenBot.runFaucetSettle now r o i s).bots j).retryCount = _
    by_cases e : j = i
    · subst e; simp [MidenBot.runFaucetSettle]
    · simp [MidenBot.runFaucetSettle, Function.update_noteq e, e]
  | release now i =>
    show ((MidenBot.runFaucetFinally cap now i s).bots j).retryCount = _
    unfold MidenBot.runFaucetFinally
    rw [processQueue_retryCount]
    rfl

/-- Only outcomes change the counters: a success adds one to `success`, a failure one
to `errors`. -/
theorem apply_globalStats (cap : Nat) (e : Event) (s : State) :
    (e.apply cap s).globalStats =
      match e with
      | .finish _ _ .success _ => { s.globalStats with success := s.globalStats.success + 1 }
      | .finish _ _ (.failure _) _ => { s.globalStats with errors := s.globalStats.errors + 1 }
      | _ => s.globalStats := by
  cases e with
  | queueStart now i => exact queueStart_globalStats cap now i s
  | tick now i => exact countdownTick_globalStats cap now i s
  | stage now st i => rfl
  | finish now r o i =>
    show (MidenBot.runFaucetSettle now r o i s).globalStats = _
    cases o with
    | success =>
      simp [MidenBot.runFaucetSettle, MidenBot.runFaucetOutcome, MidenBot.runFaucetSuccess]
    | failure message =>
      simp only [MidenBot.runFaucetSettle, MidenBot.runFaucetOutcome, MidenBot.runFaucetCatch]
      split <;> rfl
  | release now i =>
    show (MidenBot.runFaucetFinally cap now i s).globalStats = _
    unfold MidenBot.runFaucetFinally
    rw [processQueue_globalStats]
    rfl

/-- A worker that is queued while a slot is free and the queue is empty, and whose
execution then ends, goes through exactly one cycle. -/
theorem cycle_of_events (cap : Nat) (queuedAt endedAt : String) (r : Draw) (o : Outcome)
    (i : Nat) (s : State)
    (hg : ¬ (includes (s.bots i).status "Waiting" || includes (s.bots i).status "Queued") = true)
    (hfree : s.activeBrowsers < (cap : Int)) (hq : s.executionQueue = [])
    (hcd : (s.bots i).countdownInterval = none) (hnr : (s.bots i).nextRun = "Ready") :
    ((MidenBot.runFaucetSettle endedAt r o i (MidenBot.queueStart cap queuedAt i s)).bots i,
      (MidenBot.runFaucetSettle endedAt r o i
        (MidenBot.queueStart cap queuedAt i s)).globalStats)
      = MidenBot.cycle ⟨queuedAt, queuedAt, endedAt, r, o⟩ (s.bots i, s.globalStats) := by
  have hb : ({ s.bots i with countdownInterval := none, nextRun := "Ready" } : MidenBot)
      = s.bots i := by
    cases hbot : s.bots i with
    | mk st nr rc lg cd =>
      rw [hbot] at hcd hnr
      simp only at hcd hnr
      simp [hcd, hnr]
  rw [queueStart_of_not_guard cap queuedAt i s hg]
  have hadm := processQueue_cons cap queuedAt (MidenBot.queueStartPush queuedAt i s) i []
    hfree (by simp [MidenBot.queueStartPush, hq])
  rw [hadm]
  simp [MidenBot.runFaucetSettle, MidenBot.queueStartPush, MidenBot.cycle, MidenBot.requeue, hb]

/-! ## What one call of the pump does -/

theorem admissions_eq_zero {cap : Nat} {s : State}
    (h : (cap : Int) ≤ s.activeBrowsers ∨ s.executionQueue = []) : admissions cap s = 0 := by
  unfold admissions
  rcases h with h1 | h1
  · have : (cap - s.activeBrowsers).toNat = 0 := by omega
    rw [this]; simp
  · rw [h1]; simp

theorem admissions_eq_one {cap : Nat} {s : State} {bot : Nat} {rest : List Nat}
    (hq : s.executionQueue = bot :: rest) (hlt : s.activeBrowsers < (cap : Int)) :
    admissions cap s = 1 := by
  unfold admissions
  rw [hq]
  have : 1 ≤ (cap - s.activeBrowsers).toNat := by omega
  simp only [List.length_cons]
  omega

/-- For every state, one call of `processQueue` admits `admissions` workers, that is at
most one: the head of the queue, which it starts. -/
theorem processQueue_admissions (cap : Nat) (now : String) (s : State) :
    (processQueue cap now s).executionQueue = s.executionQueue.drop (admissions cap s) ∧
    (processQueue cap now s).admitted = s.admitted ++ s.executionQueue.take (admissions cap s) ∧
    (processQueue cap now s).activeBrowsers = s.activeBrowsers + (admissions cap s : Int) ∧
    (processQueue cap now s).inFlight
      = (s.executionQueue.take (admissions cap s)).reverse ++ s.inFlight ∧
    (∀ b ∈ s.executionQueue.take (admissions cap s),
      (processQueue cap now s).bots b = (s.bots b).runFaucetStart now) := by
  rcases processQueue_cases cap now s with ⟨heq, hwhy⟩ | ⟨bot, rest, hq, hlt, heq⟩
  · rw [heq, admissions_eq_zero hwhy]
    refine ⟨rfl, by simp, by simp, by simp, ?_⟩
    intro b hb
    simp at hb
  · rw [heq, admissions_eq_one hq hlt, hq]
    refine ⟨rfl, rfl, by simp, rfl, ?_⟩
    intro b hb
    have hb' : b = bot := by simpa using hb
    subst hb'
    simp

/-- The rest of `finally` in a reachable state: with nobody waiting the counter drops by
one; with somebody waiting the head of the queue takes the slot at once. -/
theorem runFaucetFinally_effect {cap : Nat} {s : State} (h : Reachable cap s) (now : String)
    (i : Nat) :
    (MidenBot.runFaucetFinally cap now i s).completed = s.completed ++ [i] ∧
    (s.executionQueue = [] →
      (MidenBot.runFaucetFinally cap now i s).activeBrowsers = s.activeBrowsers - 1 ∧
      (MidenBot.runFaucetFinally cap now i s).admitted = s.admitted) ∧
    (∀ b rest, s.executionQueue = b :: rest →
      (MidenBot.runFaucetFinally cap now i s).executionQueue = rest ∧
      (MidenBot.runFaucetFinally cap now i s).admitted = s.admitted ++ [b] ∧
      (MidenBot.runFaucetFinally cap now i s).activeBrowsers = s.activeBrowsers ∧
      ((MidenBot.runFaucetFinally cap now i s).bots b).status = "Running Browser" ∧
      b ∈ (MidenBot.runFaucetFinally cap now i s).inFlight) := by
  have hinv := h.inv
  have hbusy := h.busy
  refine ⟨?_, ?_, ?_⟩
  · unfold MidenBot.runFaucetFinally
    rw [processQueue_completed]
    rfl
  · intro hq
    unfold MidenBot.runFaucetFinally
    rw [processQueue_nil cap now (MidenBot.runFaucetRelease i s) hq]
    exact ⟨rfl, rfl⟩
  · intro b rest hq
    have hfull : s.inFlight.length + s.closing.length = cap :=
      hbusy (by rw [hq]; exact List.cons_ne_nil _ _)
    have ha := hinv.active_eq
    have hlt : (MidenBot.runFaucetRelease i s).activeBrowsers < (cap : Int) := by
      show s.activeBrowsers - 1 < (cap : Int)
      omega
    unfold MidenBot.runFaucetFinally
    rw [processQueue_cons cap now (MidenBot.runFaucetRelease i s) b rest hlt hq]
    refine ⟨rfl, rfl, ?_, ?_, ?_⟩
    · show s.activeBrowsers - 1 + 1 = s.activeBrowsers
      omega
    · simp
    · exact List.mem_cons_self _ _

/-! ## Runs -/

theorem Reachable.of_admissible {cap : Nat} (es : List Event) :
    ∀ {s : State}, Reachable cap s → admissible cap es s → Reachable cap (run cap es s) := by
  induction es with
  | nil => intro s h _; exact h
  | cons e es ih => intro s h ha; exact ih (Reachable.step e h ha.1) ha.2

theorem Scheduled.of_planned {cap : Nat} (es : List Event) :
    ∀ {s : State}, Scheduled cap s → planned cap es s → Scheduled cap (run cap es s) := by
  induction es with
  | nil => intro s h _; exact h
  | cons e es ih => intro s h ha; exact ih (Scheduled.step e h ha.1) ha.2

theorem apply_completed (cap : Nat) (e : Event) (s : State) :
    (e.apply cap s).completed = s.completed ++ e.released.toList := by
  cases e with
  | queueStart now i =>
    show (MidenBot.queueStart cap now i s).completed = _
    unfold MidenBot.queueStart
    split
    · simp [Event.released]
    · rw [processQueue_completed]; simp [Event.released, MidenBot.queueStartPush]
  | tick now i =>
    show (MidenBot.countdownTick cap now i s).completed = _
    unfold MidenBot.countdownTick
    split
    · simp [Event.released]
    · dsimp only
      split
      · unfold MidenBot.queueStart
        split
        · simp [Event.released, MidenBot.countdownExpire]
        · rw [processQueue_completed]
          simp [Event.released, MidenBot.queueStartPush, MidenBot.countdownExpire]
      · simp [Event.released]
  | stage now st i => simp [Event.apply, Event.released, MidenBot.runFaucetStage]
  | finish now r o i => simp [Event.apply, Event.released, MidenBot.runFaucetSettle]
  | release now i =>
    show (MidenBot.runFaucetFinally cap now i s).completed = _
    unfold MidenBot.runFaucetFinally
    rw [processQueue_completed]
    simp [Event.released, MidenBot.runFaucetRelease]

/-- The history `completed` is the list of the release events of the run, in order. -/
theorem run_completed (cap : Nat) (es : List Event) :
    ∀ s : State, (run cap es s).completed = s.completed ++ es.filterMap Event.released := by
  induction es with
  | nil => intro s; simp [run]
  | cons e es ih =>
    intro s
    have hstep : run cap (e :: es) s = run cap es (e.apply cap s) := rfl
    rw [hstep, ih, apply_completed]
    cases he : e.released <;> simp [List.filterMap_cons, he]

/-! ## The states in which the pump is called -/

theorem PumpCall.inv_at_call {cap : Nat} {s : State} (h : PumpCall cap s) : Inv cap s := by
  cases h with
  | queueStart now i hr _ => exact hr.inv.queueStartPush_inv now i
  | expiry now i remaining hr _ _ _ =>
    exact (hr.inv.countdownExpire_inv i).queueStartPush_inv now i
  | release i hr hi => exact hr.inv.runFaucetRelease_inv hi

theorem PumpCall.almost {cap : Nat} {s : State} (h : PumpCall cap s) :
    s.executionQueue ≠ [] →
      s.inFlight.length + s.closing.length = cap ∨
        s.inFlight.length + s.closing.length + 1 = cap ∨ s.executionQueue.length = 1 := by
  cases h with
  | queueStart now i hr _ => exact queueStartPush_almost hr.busy now i
  | expiry now i remaining hr _ _ _ =>
    have hb : Busy cap (MidenBot.countdownExpire i _) := hr.busy
    exact queueStartPush_almost hb now i
  | release i hr hi => exact runFaucetRelease_almost hr.busy hi

/-- Every call of `processQueue` in a run is made in one of the states of `PumpCall`: an
enabled event in a reachable state either ends with such a call, or leaves the queue, the
counter and the admissions as they are. -/
theorem apply_pumpCall {cap : Nat} {s : State} (h : Reachable cap s) (e : Event)
    (he : e.enabled s) :
    (∃ now s1, PumpCall cap s1 ∧ e.apply cap s = processQueue cap now s1) ∨
    ((e.apply cap s).executionQueue = s.executionQueue ∧
      (e.apply cap s).activeBrowsers = s.activeBrowsers ∧
      (e.apply cap s).admitted = s.admitted) := by
  cases e with
  | queueStart now i =>
    simp only [Event.apply]
    by_cases hg : (includes (s.bots i).status "Waiting" ||
        includes (s.bots i).status "Queued") = true
    · right
      rw [queueStart_of_guard cap now i s hg]
      exact ⟨rfl, rfl, rfl⟩
    · left
      exact ⟨now, _, PumpCall.queueStart now i h hg, queueStart_of_not_guard cap now i s hg⟩
  | tick now i =>
    simp only [Event.apply]
    unfold MidenBot.countdownTick
    split
    · exact Or.inr ⟨rfl, rfl, rfl⟩
    · rename_i remaining hrem
      dsimp only
      split
      · rename_i hle
        by_cases hg : (includes ((MidenBot.countdownExpire i s).bots i).status "Waiting" ||
            includes ((MidenBot.countdownExpire i s).bots i).status "Queued") = true
        · right
          rw [queueStart_of_guard cap now i _ hg]
          exact ⟨rfl, rfl, rfl⟩
        · left
          exact ⟨now, _, PumpCall.expiry now i remaining h hrem hle hg,
            queueStart_of_not_guard cap now i _ hg⟩
      · exact Or.inr ⟨rfl, rfl, rfl⟩
  | stage now st i => exact Or.inr ⟨rfl, rfl, rfl⟩
  | finish now r o i => exact Or.inr ⟨rfl, rfl, rfl⟩
  | release now i => exact Or.inl ⟨now, _, PumpCall.release i h he, rfl⟩

/-! ## The claims -/

/-- C1: in every state reachable from the initial state by any sequence of `queueStart`
calls, countdown ticks, stages and completions of pending executions (success or
failure), `activeBrowsers` is at least 0 and at most `MAX_CONCURRENT_BROWSERS`. -/
theorem activeBrowsers_within_ceiling (cap : Nat) (s : State) (h : Reachable cap s) :
    0 ≤ s.activeBrowsers ∧ s.activeBrowsers ≤ (cap : Int) := by
  have hinv := h.inv
  have h1 := hinv.active_eq
  have h2 := hinv.le_cap
  constructor <;> omega

/-- Witness for C1: five wallets, ceiling 4; `main` starts every worker, the first
execution fails, the second succeeds, the first releases its slot. -/
theorem activeBrowsers_within_ceiling_witness :
    0 ≤ (run (MAX_CONCURRENT_BROWSERS 5)
          [.queueStart "12:00:00" 0, .queueStart "12:00:00" 1, .queueStart "12:00:00" 2,
          .queueStart "12:00:00" 3, .queueStart "12:00:00" 4,
          .finish "12:01:10" 0 (.failure "Timeout 60000ms exceeded") 0,
          .finish "12:01:12" 0 .success 1, .release "12:01:13" 0]
          (State.init 5 0)).activeBrowsers ∧
    (run (MAX_CONCURRENT_BROWSERS 5)
          [.queueStart "12:00:00" 0, .queueStart "12:00:00" 1, .queueStart "12:00:00" 2,
          .queueStart "12:00:00" 3, .queueStart "12:00:00" 4,
          .finish "12:01:10" 0 (.failure "Timeout 60000ms exceeded") 0,
          .finish "12:01:12" 0 .success 1, .release "12:01:13" 0]
          (State.init 5 0)).activeBrowsers
      ≤ ((MAX_CONCURRENT_BROWSERS 5 : Nat) : Int) :=
  activeBrowsers_within_ceiling (MAX_CONCURRENT_BROWSERS 5) _
    (Reachable.of_admissible _ (Reachable.init 5 0) (by decide))

/-- C2: in every state reachable from the initial state by the startup `queueStart`
calls of `main`, countdown ticks, stages, outcomes and releases of pending executions,
every worker in `executionQueue` has status `Queued` (so neither `Running Browser` nor
`Processing`), has no execution whose `try` body is running, and appears in the queue at
most once. (It may still have an earlier execution waiting in `finally` for
`browser.close()`: see the witness.) -/
theorem queued_workers_not_running (cap : Nat) (s : State) (h : Scheduled cap s) :
    (∀ i ∈ s.executionQueue,
      (s.bots i).status = "Queued" ∧ (s.bots i).status ≠ "Running Browser" ∧
        (s.bots i).status ≠ "Processing" ∧ i ∉ s.inFlight ∧ s.executionQueue.count i = 1) ∧
    s.executionQueue.Nodup := by
  have hex := h.exclusive
  refine ⟨?_, hex.queue_nodup⟩
  intro i hi
  have hq := hex.queued i hi
  refine ⟨hq.1, ?_, ?_, hq.2.2, List.count_eq_one_of_mem hex.queue_nodup hi⟩
  · rw [hq.1]; decide
  · rw [hq.1]; decide

/-- Witness for C2: ceiling 1; worker 0 fails and its retry countdown of 60 seconds runs
out while `browser.close()` is still pending: the worker is queued, with status
`Queued`, while its first execution still holds the slot. -/
theorem queued_workers_not_running_witness :
    ((run 1 ([.queueStart "12:00:00" 0,
          .finish "12:00:40" 0 (.failure "Timeout 30000ms exceeded") 0]
        ++ List.replicate 60 (.tick "12:01:40" 0)) (State.init 1 0)).bots 0).status = "Queued" ∧
    0 ∉ (run 1 ([.queueStart "12:00:00" 0,
          .finish "12:00:40" 0 (.failure "Timeout 30000ms exceeded") 0]
        ++ List.replicate 60 (.tick "12:01:40" 0)) (State.init 1 0)).inFlight ∧
    (run 1 ([.queueStart "12:00:00" 0,
          .finish "12:00:40" 0 (.failure "Timeout 30000ms exceeded") 0]
        ++ List.replicate 60 (.tick "12:01:40" 0)) (State.init 1 0)).executionQueue = [0] ∧
    (run 1 ([.queueStart "12:00:00" 0,
          .finish "12:00:40" 0 (.failure "Timeout 30000ms exceeded") 0]
        ++ List.replicate 60 (.tick "12:01:40" 0)) (State.init 1 0)).closing = [0] :=
  have h := queued_workers_not_running 1 _
    (Scheduled.of_planned ([.queueStart "12:00:00" 0,
          .finish "12:00:40" 0 (.failure "Timeout 30000ms exceeded") 0]
        ++ List.replicate 60 (.tick "12:01:40" 0)) (Scheduled.init 1 0) (by decide))
  ⟨(h.1 0 (by decide)).1, (h.1 0 (by decide)).2.2.2.1, by decide, by decide⟩

/-- C3: every admitted execution releases its slot exactly once, whatever its outcome.
For every run of the scheduler from the initial state: the releases recorded are exactly
the release events of the run; `activeBrowsers` equals the number of executions admitted
by `processQueue` minus the number of releases; for each worker the executions admitted
are those released plus those still pending (before or after their outcome). An execution
whose `try` body is running, on success and on failure alike, keeps its slot and reaches
`finally`, where its release can occur; and that release decrements `activeBrowsers` by
one and calls `processQueue`, so that with nobody waiting the counter drops by one and
with somebody waiting the head of the queue is started in the freed slot. -/
theorem slot_released_exactly_once (cap total proxies : Nat) (es : List Event) (s : State)
    (h : admissible cap es (State.init total proxies))
    (hs : s = run cap es (State.init total proxies)) :
    s.completed = es.filterMap Event.released ∧
    s.activeBrowsers
      = (s.admitted.length : Int) - ((es.filterMap Event.released).length : Int) ∧
    (∀ w, s.admitted.count w
      = (es.filterMap Event.released).count w + s.closing.count w + s.inFlight.count w) ∧
    (∀ (now now2 : String) (r : Draw) (o : Outcome) (i : Nat), i ∈ s.inFlight →
      (Event.release now2 i).enabled (MidenBot.runFaucetSettle now r o i s) ∧
      (MidenBot.runFaucetSettle now r o i s).activeBrowsers = s.activeBrowsers ∧
      (MidenBot.runFaucetSettle now r o i s).completed = s.completed) ∧
    (∀ (now : String) (i : Nat), i ∈ s.closing →
      (MidenBot.runFaucetFinally cap now i s).completed = s.completed ++ [i] ∧
      (s.executionQueue = [] →
        (MidenBot.runFaucetFinally cap now i s).activeBrowsers = s.activeBrowsers - 1 ∧
        (MidenBot.runFaucetFinally cap now i s).admitted = s.admitted) ∧
      (∀ b rest, s.executionQueue = b :: rest →
        (MidenBot.runFaucetFinally cap now i s).executionQueue = rest ∧
        (MidenBot.runFaucetFinally cap now i s).admitted = s.admitted ++ [b] ∧
        (MidenBot.runFaucetFinally cap now i s).activeBrowsers = s.activeBrowsers ∧
        ((MidenBot.runFaucetFinally cap now i s).bots b).status = "Running Browser" ∧
        b ∈ (MidenBot.runFaucetFinally cap now i s).inFlight)) := by
  have hreach : Reachable cap s := by
    rw [hs]; exact Reachable.of_admissible es (Reachable.init total proxies) h
  have hinv := hreach.inv
  have hc : s.completed = es.filterMap Event.released := by
    rw [hs, run_completed]; rfl
  have ha := hinv.active_eq
  have hb := hinv.balance
  refine ⟨hc, ?_, ?_, ?_, ?_⟩
  · rw [← hc]; omega
  · intro w
    rw [← hc]
    exact hinv.tally w
  · intro now now2 r o i hi
    refine ⟨?_, rfl, rfl⟩
    show i ∈ i :: s.closing
    exact List.mem_cons_self _ _
  · intro now i _
    exact runFaucetFinally_effect hreach now i

/-- Witness for C3: ceiling 1, two workers started; worker 0 runs, fails, and releases
its slot, which worker 1 takes. -/
theorem slot_released_exactly_once_witness :
    (run 1 [.queueStart "12:00:00" 0, .queueStart "12:00:00" 1,
        .finish "12:01:00" 0 (.failure "net::ERR_TIMED_OUT") 0, .release "12:01:01" 0]
        (State.init 2 0)).completed
      = [.queueStart "12:00:00" 0, .queueStart "12:00:00" 1,
        .finish "12:01:00" 0 (.failure "net::ERR_TIMED_OUT") 0,
        .release "12:01:01" 0].filterMap Event.released ∧
    (run 1 [.queueStart "12:00:00" 0, .queueStart "12:00:00" 1,
        .finish "12:01:00" 0 (.failure "net::ERR_TIMED_OUT") 0, .release "12:01:01" 0]
        (State.init 2 0)).admitted = [0, 1] ∧
    (run 1 [.queueStart "12:00:00" 0, .queueStart "12:00:00" 1,
        .finish "12:01:00" 0 (.failure "net::ERR_TIMED_OUT") 0, .release "12:01:01" 0]
        (State.init 2 0)).activeBrowsers = 1 :=
  ⟨(slot_released_exactly_once 1 2 0
      [.queueStart "12:00:00" 0, .queueStart "12:00:00" 1,
        .finish "12:01:00" 0 (.failure "net::ERR_TIMED_OUT") 0, .release "12:01:01" 0]
      _ (by decide) rfl).1, by decide, by decide⟩

/-- C4, counterexample: from the initial state with ceiling 4, one `queueStart` of
worker 0 admits it at once (one execution, status `Running Browser`); a second
`queueStart` right after enqueues and admits it again (two executions of the same
worker, `activeBrowsers` 2). With ceiling 1 the second call leaves the worker in the
queue with status `Queued` while its first execution is pending. -/
theorem queueStart_twice_counterexample :
    (MidenBot.queueStart 4 "12:00:00" 0 (State.init 5 0)).activeBrowsers = 1 ∧
    ((MidenBot.queueStart 4 "12:00:00" 0 (State.init 5 0)).bots 0).status = "Running Browser" ∧
    (MidenBot.queueStart 4 "12:00:00" 0
      (MidenBot.queueStart 4 "12:00:00" 0 (State.init 5 0))).activeBrowsers = 2 ∧
    (MidenBot.queueStart 4 "12:00:00" 0
      (MidenBot.queueStart 4 "12:00:00" 0 (State.init 5 0))).admitted = [0, 0] ∧
    (MidenBot.queueStart 1 "12:00:00" 0 (State.init 1 0)).executionQueue = [] ∧
    (MidenBot.queueStart 1 "12:00:00" 0
      (MidenBot.queueStart 1 "12:00:00" 0 (State.init 1 0))).executionQueue = [0] ∧
    ((MidenBot.queueStart 1 "12:00:00" 0
      (MidenBot.queueStart 1 "12:00:00" 0 (State.init 1 0))).bots 0).status = "Queued" ∧
    (MidenBot.queueStart 1 "12:00:00" 0
      (MidenBot.queueStart 1 "12:00:00" 0 (State.init 1 0))).inFlight = [0] := by
  decide

/-- C4, amended: in every state where the first call does not admit the worker itself at
once (its status already contains `Waiting` or `Queued`, or no slot is free, or another
worker is at the head of the queue), calling `queueStart` on the worker twice in
succession leaves the same state as calling it once, and the queue holds at most one
more entry of the worker than before. -/
theorem queueStart_twice_of_not_admitted (cap : Nat) (now now2 : String) (i : Nat) (s : State)
    (h : (includes (s.bots i).status "Waiting" || includes (s.bots i).status "Queued") = true ∨
      (cap : Int) ≤ s.activeBrowsers ∨ (s.executionQueue ++ [i]).head? ≠ some i) :
    MidenBot.queueStart cap now2 i (MidenBot.queueStart cap now i s)
      = MidenBot.queueStart cap now i s ∧
    (MidenBot.queueStart cap now2 i (MidenBot.queueStart cap now i s)).executionQueue.count i
      ≤ s.executionQueue.count i + 1 := by
  by_cases hg : (includes (s.bots i).status "Waiting" || includes (s.bots i).status "Queued") = true
  · rw [queueStart_of_guard cap now i s hg, queueStart_of_guard cap now2 i s hg]
    exact ⟨rfl, Nat.le_succ _⟩
  · have hstatus : ((MidenBot.queueStart cap now i s).bots i).status = "Queued" := by
      rw [queueStart_of_not_guard cap now i s hg]
      rcases processQueue_cases cap now (MidenBot.queueStartPush now i s)
        with ⟨heq, _⟩ | ⟨bot, rest, hq, hlt, heq⟩
      · rw [heq]; simp [MidenBot.queueStartPush]
      · rw [heq]
        have hne : i ≠ bot := by
          rcases h with h1 | h1 | h1
          · exact absurd h1 hg
          · exact absurd h1 (by simpa using hlt)
          · intro e
            apply h1
            have hq2 : s.executionQueue ++ [i] = bot :: rest := hq
            rw [hq2, e]
            rfl
        simp [MidenBot.queueStartPush, Function.update_noteq hne]
    have hg2 : (includes ((MidenBot.queueStart cap now i s).bots i).status "Waiting" ||
        includes ((MidenBot.queueStart cap now i s).bots i).status "Queued") = true := by
      rw [hstatus]; decide
    rw [queueStart_of_guard cap now2 i _ hg2]
    refine ⟨rfl, ?_⟩
    rw [queueStart_of_not_guard cap now i s hg]
    refine le_trans (processQueue_count_le cap now _ i) ?_
    show (s.executionQueue ++ [i]).count i ≤ s.executionQueue.count i + 1
    simp

/-- Witness for C4, amended: ceiling 1, worker 0 is running; `queueStart` of worker 1
twice is the same as once. -/
theorem queueStart_twice_of_not_admitted_witness :
    MidenBot.queueStart 1 "12:00:02" 1 (MidenBot.queueStart 1 "12:00:01" 1
        (MidenBot.queueStart 1 "12:00:00" 0 (State.init 2 0)))
      = MidenBot.queueStart 1 "12:00:01" 1 (MidenBot.queueStart 1 "12:00:00" 0 (State.init 2 0)) ∧
    (MidenBot.queueStart 1 "12:00:01" 1
        (MidenBot.queueStart 1 "12:00:00" 0 (State.init 2 0))).executionQueue = [1] :=
  ⟨(queueStart_twice_of_not_admitted 1 "12:00:01" "12:00:02" 1
      (MidenBot.queueStart 1 "12:00:00" 0 (State.init 2 0)) (Or.inr (Or.inl (by decide)))).1,
    by decide⟩

/-- C5, counterexample: a new worker (`retryCount` 0) after exactly three failed
executions has `retryCount` 3, not 0; its status is `Retry 3/3` and the countdown started
by the third failure is the fixed retry delay of 60 seconds, below `MIN_LOOP_MINUTES`
minutes. -/
theorem three_failures_counterexample :
    (MidenBot.cycles
      [⟨"12:00:00", "12:00:00", "12:01:00", 0, .failure "Timeout 30000ms exceeded"⟩,
       ⟨"12:02:00", "12:02:00", "12:03:00", 0, .failure "Timeout 30000ms exceeded"⟩,
       ⟨"12:04:00", "12:04:00", "12:05:00", 0, .failure "Timeout 30000ms exceeded"⟩]
      (MidenBot.new, ⟨1, 0, 0, 0, 0⟩)).1.retryCount = 3 ∧
    (MidenBot.cycles
      [⟨"12:00:00", "12:00:00", "12:01:00", 0, .failure "Timeout 30000ms exceeded"⟩,
       ⟨"12:02:00", "12:02:00", "12:03:00", 0, .failure "Timeout 30000ms exceeded"⟩,
       ⟨"12:04:00", "12:04:00", "12:05:00", 0, .failure "Timeout 30000ms exceeded"⟩]
      (MidenBot.new, ⟨1, 0, 0, 0, 0⟩)).1.countdownInterval = some 60 ∧
    (MidenBot.cycles
      [⟨"12:00:00", "12:00:00", "12:01:00", 0, .failure "Timeout 30000ms exceeded"⟩,
       ⟨"12:02:00", "12:02:00", "12:03:00", 0, .failure "Timeout 30000ms exceeded"⟩,
       ⟨"12:04:00", "12:04:00", "12:05:00", 0, .failure "Timeout 30000ms exceeded"⟩]
      (MidenBot.new, ⟨1, 0, 0, 0, 0⟩)).1.status = "Retry 3/3" ∧
    (60 : Int) * 1000 < MIN_LOOP_MINUTES * 60 * 1000 := by
  decide

/-- C5, amended: for every worker whose `retryCount` is 0, after `MAX_RETRIES` (3)
consecutive failed executions its `retryCount` is `MAX_RETRIES` and the delay scheduled is
the fixed `RETRY_DELAY_MINUTES`; after one more failed execution (`MAX_RETRIES + 1` in
all) its `retryCount` is 0 again and the delay scheduled after that last failure is the
randomized long sleep, within `MIN_LOOP_MINUTES` and `MAX_LOOP_MINUTES` minutes. -/
theorem retries_exhausted_after_four_failures (b : MidenBot) (g : GlobalStats)
    (hb : b.retryCount = 0) (fails : List Cycle)
    (hf : ∀ x ∈ fails, x.outcome.isFailure = true) (hlen : fails.length = MAX_RETRIES)
    (last : Cycle) (hl : last.outcome.isFailure = true) :
    (MidenBot.cycles fails (b, g)).1.retryCount = MAX_RETRIES ∧
    (MidenBot.cycles fails (b, g)).1.countdownInterval = some (RETRY_DELAY_MINUTES * 60) ∧
    (MidenBot.cycles (fails ++ [last]) (b, g)).1.retryCount = 0 ∧
    (MidenBot.cycles (fails ++ [last]) (b, g)).1.status = "Sleeping" ∧
    (MidenBot.cycles (fails ++ [last]) (b, g)).1.countdownInterval
      = some (loopWaitMs last.draw / 1000) ∧
    MIN_LOOP_MINUTES * 60 * 1000 ≤ loopWaitMs last.draw ∧
    loopWaitMs last.draw ≤ MAX_LOOP_MINUTES * 60 * 1000 := by
  have hall := cycles_failures fails (b, g) hf (by simp only [hb, hlen]; omega)
  have hrc : (MidenBot.cycles fails (b, g)).1.retryCount = MAX_RETRIES := by
    rw [hall.1]; simp only [hb, hlen]; omega
  have hne : fails ≠ [] := by
    intro e; rw [e] at hlen; exact absurd hlen (by decide)
  have hsplit : fails.dropLast ++ [fails.getLast hne] = fails := List.dropLast_append_getLast hne
  have hcd : (MidenBot.cycles fails (b, g)).1.countdownInterval
      = some (RETRY_DELAY_MINUTES * 60) := by
    have hfl : (fails.getLast hne).outcome.isFailure = true := hf _ (List.getLast_mem hne)
    have hdl : fails.dropLast.length = fails.length - 1 := List.length_dropLast fails
    have hpre := cycles_failures fails.dropLast (b, g)
      (fun x hx => hf x (List.dropLast_subset fails hx))
      (by simp only [hb, hdl, hlen]; omega)
    rw [← hsplit, cycles_snoc]
    refine (cycle_failure_retry _ _ hfl ?_).2.1
    rw [hpre.1]
    simp only [hb, hdl, hlen, MAX_RETRIES]
    omega
  have hlast := cycle_failure_exhausted last (MidenBot.cycles fails (b, g)) hl
    (by rw [hrc]; omega)
  have hbd := loopWaitMs_bounds last.draw
  rw [cycles_snoc]
  exact ⟨hrc, hcd, hlast.1, hlast.2.1, hlast.2.2.1, hbd.1, hbd.2⟩

/-- Witness for C5, amended: a new worker, four failures in a row, last draw 1/2. -/
theorem retries_exhausted_after_four_failures_witness :
    (MidenBot.cycles
      ([⟨"12:00:00", "12:00:00", "12:01:00", 0, .failure "Timeout 30000ms exceeded"⟩,
        ⟨"12:02:00", "12:02:00", "12:03:00", 0, .failure "Timeout 30000ms exceeded"⟩,
        ⟨"12:04:00", "12:04:00", "12:05:00", 0, .failure "Timeout 30000ms exceeded"⟩]
        ++ [⟨"12:06:00", "12:06:00", "12:07:00", Draw.half,
          .failure "Timeout 30000ms exceeded"⟩])
      (MidenBot.new, ⟨1, 0, 0, 0, 0⟩)).1.retryCount = 0 ∧
    MIN_LOOP_MINUTES * 60 * 1000 ≤ loopWaitMs Draw.half ∧
    loopWaitMs Draw.half ≤ MAX_LOOP_MINUTES * 60 * 1000 :=
  have h := retries_exhausted_after_four_failures MidenBot.new ⟨1, 0, 0, 0, 0⟩ rfl
    [⟨"12:00:00", "12:00:00", "12:01:00", 0, .failure "Timeout 30000ms exceeded"⟩,
     ⟨"12:02:00", "12:02:00", "12:03:00", 0, .failure "Timeout 30000ms exceeded"⟩,
     ⟨"12:04:00", "12:04:00", "12:05:00", 0, .failure "Timeout 30000ms exceeded"⟩]
    (by decide) rfl
    ⟨"12:06:00", "12:06:00", "12:07:00", Draw.half, .failure "Timeout 30000ms exceeded"⟩
    rfl
  ⟨h.2.2.1, h.2.2.2.2.2.1, h.2.2.2.2.2.2⟩

/-- C6: for every number k of failures with 0 ≤ k ≤ `MAX_RETRIES` and a worker starting
with `retryCount` 0, k consecutive failed executions followed by one successful
execution increase `globalStats.errors` by exactly k and `globalStats.success` by
exactly 1 and leave the worker's `retryCount` at 0. -/
theorem failures_then_success (b : MidenBot) (g : GlobalStats) (hb : b.retryCount = 0)
    (fails : List Cycle) (hf : ∀ x ∈ fails, x.outcome.isFailure = true)
    (hk : fails.length ≤ MAX_RETRIES) (last : Cycle) (hl : last.outcome = .success) :
    (MidenBot.cycles (fails ++ [last]) (b, g)).2.errors = g.errors + fails.length ∧
    (MidenBot.cycles (fails ++ [last]) (b, g)).2.success = g.success + 1 ∧
    (MidenBot.cycles (fails ++ [last]) (b, g)).1.retryCount = 0 := by
  have hall := cycles_failures fails (b, g) hf (by simp only [hb]; omega)
  have hs := cycle_success last (MidenBot.cycles fails (b, g)) hl
  rw [cycles_snoc]
  refine ⟨?_, ?_, hs.1⟩
  · rw [hs.2.2.2.1, hall.2.1]
  · rw [hs.2.2.2.2, hall.2.2]

/-- Witness for C6: k = 3 gives errors 3, success 1, `retryCount` 0. -/
theorem failures_then_success_witness :
    (MidenBot.cycles
      ([⟨"12:00:00", "12:00:00", "12:01:00", 0, .failure "Timeout 30000ms exceeded"⟩,
        ⟨"12:02:00", "12:02:00", "12:03:00", 0, .failure "Timeout 30000ms exceeded"⟩,
        ⟨"12:04:00", "12:04:00", "12:05:00", 0, .failure "Timeout 30000ms exceeded"⟩]
        ++ [⟨"12:06:00", "12:06:00", "12:07:30", Draw.half, .success⟩])
      (MidenBot.new, ⟨1, 0, 0, 0, 0⟩)).2.errors = 3 ∧
    (MidenBot.cycles
      ([⟨"12:00:00", "12:00:00", "12:01:00", 0, .failure "Timeout 30000ms exceeded"⟩,
        ⟨"12:02:00", "12:02:00", "12:03:00", 0, .failure "Timeout 30000ms exceeded"⟩,
        ⟨"12:04:00", "12:04:00", "12:05:00", 0, .failure "Timeout 30000ms exceeded"⟩]
        ++ [⟨"12:06:00", "12:06:00", "12:07:30", Draw.half, .success⟩])
      (MidenBot.new, ⟨1, 0, 0, 0, 0⟩)).2.success = 1 ∧
    (MidenBot.cycles
      ([⟨"12:00:00", "12:00:00", "12:01:00", 0, .failure "Timeout 30000ms exceeded"⟩,
        ⟨"12:02:00", "12:02:00", "12:03:00", 0, .failure "Timeout 30000ms exceeded"⟩,
        ⟨"12:04:00", "12:04:00", "12:05:00", 0, .failure "Timeout 30000ms exceeded"⟩]
        ++ [⟨"12:06:00", "12:06:00", "12:07:30", Draw.half, .success⟩])
      (MidenBot.new, ⟨1, 0, 0, 0, 0⟩)).1.retryCount = 0 :=
  failures_then_success MidenBot.new ⟨1, 0, 0, 0, 0⟩ rfl
    [⟨"12:00:00", "12:00:00", "12:01:00", 0, .failure "Timeout 30000ms exceeded"⟩,
     ⟨"12:02:00", "12:02:00", "12:03:00", 0, .failure "Timeout 30000ms exceeded"⟩,
     ⟨"12:04:00", "12:04:00", "12:05:00", 0, .failure "Timeout 30000ms exceeded"⟩]
    (by decide) (by decide) ⟨"12:06:00", "12:06:00", "12:07:30", Draw.half, .success⟩ rfl

/-- C7: for every draw r of `Math.random()`, a binary64 number with 0 ≤ r < 1, the delay
`waitMs` computed by `scheduleNextLoop`, with the product rounded to binary64 as the code
computes it, lies between `MIN_LOOP_MINUTES` and `MAX_LOOP_MINUTES` minutes inclusive (in
milliseconds and in whole minutes); the draw 0 gives exactly `MIN_LOOP_MINUTES` minutes;
every draw from (maxMs - minMs) / (maxMs - minMs + 1) on gives exactly
`MAX_LOOP_MINUTES` minutes; and this delay, in seconds, is the countdown
`scheduleNextLoop` starts. -/
theorem loop_delay_within_bounds (r : Draw) :
    0 ≤ r.val ∧ r.val < 1 ∧
    MIN_LOOP_MINUTES * 60 * 1000 ≤ loopWaitMs r ∧
    loopWaitMs r ≤ MAX_LOOP_MINUTES * 60 * 1000 ∧
    MIN_LOOP_MINUTES ≤ loopWaitMs r / 60000 ∧
    loopWaitMs r / 60000 ≤ MAX_LOOP_MINUTES ∧
    loopWaitMs 0 = MIN_LOOP_MINUTES * 60 * 1000 ∧
    ((((MAX_LOOP_MINUTES * 60 * 1000 - MIN_LOOP_MINUTES * 60 * 1000 : Int) : ℚ)
        / ((MAX_LOOP_MINUTES * 60 * 1000 - MIN_LOOP_MINUTES * 60 * 1000 + 1 : Int) : ℚ)
          ≤ r.val) →
      loopWaitMs r = MAX_LOOP_MINUTES * 60 * 1000) ∧
    ∀ (now : String) (b : MidenBot),
      (b.scheduleNextLoop now r).countdownInterval = some (loopWaitMs r / 1000) := by
  have hb := loopWaitMs_bounds r
  have hlo := hb.1
  have hhi := hb.2
  have hz := loopWaitMs_zero
  refine ⟨r.val_nonneg, r.val_lt_one, hlo, hhi, ?_, ?_, hz, ?_, fun now b => by simp⟩
  · simp only [MIN_LOOP_MINUTES] at hlo ⊢; omega
  · simp only [MAX_LOOP_MINUTES] at hhi ⊢; omega
  · intro hmax
    apply loopWaitMs_of_ge
    have h3 : ((MAX_LOOP_MINUTES * 60 * 1000 - MIN_LOOP_MINUTES * 60 * 1000 : Int) : ℚ)
        / ((MAX_LOOP_MINUTES * 60 * 1000 - MIN_LOOP_MINUTES * 60 * 1000 + 1 : Int) : ℚ)
        = (300000 : ℚ) / 300001 := by
      simp only [MIN_LOOP_MINUTES, MAX_LOOP_MINUTES]; norm_num
    rw [← h3]; exact hmax

/-- Witness for C7: the largest draw, 1 - 2^-53, gives exactly ten minutes, and the draw 0
exactly five. -/
theorem loop_delay_within_bounds_witness :
    loopWaitMs Draw.largest = MAX_LOOP_MINUTES * 60 * 1000 ∧
    loopWaitMs 0 = MIN_LOOP_MINUTES * 60 * 1000 :=
  have h := loop_delay_within_bounds Draw.largest
  ⟨h.2.2.2.2.2.2.2.1 (by
      have hv : Draw.largest.val = ((2 ^ 53 - 1 : Nat) : ℚ) / 2 ^ 53 := rfl
      rw [hv]
      simp only [MIN_LOOP_MINUTES, MAX_LOOP_MINUTES]
      norm_num), h.2.2.2.2.2.2.1⟩

/-- C8: for every sequence of n `addLog` calls on a worker whose log is empty, the
worker's `logs` has length min(n, 50), never more than 50, and consists of the lines of
the last min(n, 50) calls in the order of the calls. -/
theorem logs_keep_last_fifty (calls : List (String × String)) (b : MidenBot)
    (hb : b.logs = []) :
    (b.addLogs calls).logs.length = min calls.length 50 ∧
    (b.addLogs calls).logs.length ≤ 50 ∧
    (b.addLogs calls).logs
      = (calls.map (fun c => MidenBot.logLine c.1 c.2)).drop
          (calls.length - min calls.length 50) := by
  have h := addLogs_logs calls b (by rw [hb]; exact Nat.zero_le _)
  rw [hb] at h
  simp only [List.nil_append, List.length_nil, Nat.zero_add] at h
  have hd : calls.length - min calls.length 50 = calls.length - 50 := by omega
  rw [hd, h]
  simp only [List.length_drop, List.length_map]
  refine ⟨by omega, by omega, trivial⟩

/-- Witness for C8: fifty-two calls on a new worker leave fifty lines. -/
theorem logs_keep_last_fifty_witness :
    ((MidenBot.new).addLogs
      (List.replicate 52 ("12:00:00", "Waiting for input..."))).logs.length = 50 :=
  (logs_keep_last_fifty (List.replicate 52 ("12:00:00", "Waiting for input..."))
    MidenBot.new rfl).1

/-- C9: admission is first in, first out: in every reachable state the workers admitted
so far, in the order of their admission, followed by the workers still queued, are
exactly the workers enqueued so far in the order of their enqueueing; so the admitted
sequence is a prefix of the enqueued sequence, and the n-th admission is the n-th
enqueue. -/
theorem admission_is_fifo (cap : Nat) (s : State) (h : Reachable cap s) :
    s.enqueued = s.admitted ++ s.executionQueue ∧
    s.admitted <+: s.enqueued ∧
    ∀ n, n < s.admitted.length → s.admitted[n]? = s.enqueued[n]? := by
  have hf := h.inv.fifo
  refine ⟨hf, ⟨s.executionQueue, hf.symm⟩, ?_⟩
  intro n hn
  rw [hf, List.getElem?_append_left hn]

/-- Witness for C9: ceiling 1, workers 0, 1, 2 started in this order, worker 0 completes
and releases its slot: 0 then 1 were admitted, 2 still waits. -/
theorem admission_is_fifo_witness :
    (run 1 [.queueStart "12:00:00" 0, .queueStart "12:00:00" 1, .queueStart "12:00:00" 2,
        .finish "12:01:10" 0 .success 0, .release "12:01:11" 0] (State.init 3 0)).admitted
      <+: (run 1 [.queueStart "12:00:00" 0, .queueStart "12:00:00" 1, .queueStart "12:00:00" 2,
        .finish "12:01:10" 0 .success 0, .release "12:01:11" 0] (State.init 3 0)).enqueued ∧
    (run 1 [.queueStart "12:00:00" 0, .queueStart "12:00:00" 1, .queueStart "12:00:00" 2,
        .finish "12:01:10" 0 .success 0, .release "12:01:11" 0] (State.init 3 0)).admitted = [0, 1] ∧
    (run 1 [.queueStart "12:00:00" 0, .queueStart "12:00:00" 1, .queueStart "12:00:00" 2,
        .finish "12:01:10" 0 .success 0, .release "12:01:11" 0] (State.init 3 0)).enqueued = [0, 1, 2] :=
  ⟨(admission_is_fifo 1 _ (Reachable.of_admissible _ (Reachable.init 3 0) (by decide))).2.1,
    by decide, by decide⟩

/-- C10: the pump drains the queue as far as capacity allows, at every call the program
makes. In every state in which `processQueue` is called (in `queueStart` after the push,
in `finally` after the decrement, from any reachable state), after the call either
`executionQueue` is empty or `activeBrowsers` is at least `MAX_CONCURRENT_BROWSERS`; the
call admits min(queue length, `MAX_CONCURRENT_BROWSERS` - `activeBrowsers`) workers from
the head of the queue, in order, and starts each of them (prologue of `runFaucet`, status
`Running Browser`, execution pending). -/
theorem pump_drains_queue (cap : Nat) (s : State) (h : PumpCall cap s) (now : String) :
    ((processQueue cap now s).executionQueue = [] ∨
      (cap : Int) ≤ (processQueue cap now s).activeBrowsers) ∧
    (processQueue cap now s).executionQueue = s.executionQueue.drop (drainCount cap s) ∧
    (processQueue cap now s).admitted = s.admitted ++ s.executionQueue.take (drainCount cap s) ∧
    (processQueue cap now s).activeBrowsers = s.activeBrowsers + (drainCount cap s : Int) ∧
    (processQueue cap now s).inFlight
      = (s.executionQueue.take (drainCount cap s)).reverse ++ s.inFlight ∧
    (∀ b ∈ s.executionQueue.take (drainCount cap s),
      (processQueue cap now s).bots b = (s.bots b).runFaucetStart now ∧
      ((processQueue cap now s).bots b).status = "Running Browser") := by
  have hinv : Inv cap s := PumpCall.inv_at_call h
  have halmost := PumpCall.almost h
  have ha := hinv.active_eq
  have hc := hinv.le_cap
  have hd : admissions cap s = drainCount cap s := by
    unfold admissions drainCount
    by_cases hq : s.executionQueue = []
    · rw [hq]; simp
    · rcases halmost hq with h1 | h1 | h1
      · have : (cap - s.activeBrowsers).toNat = 0 := by omega
        rw [this]; simp
      · have : (cap - s.activeBrowsers).toNat = 1 := by omega
        rw [this]; omega
      · rw [h1]; omega
  have hadm := processQueue_admissions cap now s
  rw [hd] at hadm
  obtain ⟨h1, h2, h3, h4, h5⟩ := hadm
  refine ⟨?_, h1, h2, h3, h4, ?_⟩
  · have hbusy : Busy cap (processQueue cap now s) := Busy.processQueue_busy hinv now halmost
    have hinv2 := hinv.processQueue_inv now
    have ha2 := hinv2.active_eq
    by_cases hq : (processQueue cap now s).executionQueue = []
    · exact Or.inl hq
    · right
      have := hbusy hq
      omega
  · intro b hb
    have := h5 b hb
    refine ⟨this, ?_⟩
    rw [this]
    simp

/-- Witness for C10: ceiling 1, worker 0 has failed and its `finally` runs with worker 1
waiting: the call admits worker 1. -/
theorem pump_drains_queue_witness :
    ((processQueue 1 "12:01:01" (MidenBot.runFaucetRelease 0
        (run 1 [.queueStart "12:00:00" 0, .queueStart "12:00:00" 1,
          .finish "12:01:00" 0 (.failure "net::ERR_TIMED_OUT") 0]
          (State.init 2 0)))).executionQueue = [] ∨
      ((1 : Nat) : Int) ≤ (processQueue 1 "12:01:01" (MidenBot.runFaucetRelease 0
        (run 1 [.queueStart "12:00:00" 0, .queueStart "12:00:00" 1,
          .finish "12:01:00" 0 (.failure "net::ERR_TIMED_OUT") 0]
          (State.init 2 0)))).activeBrowsers) ∧
    (processQueue 1 "12:01:01" (MidenBot.runFaucetRelease 0
        (run 1 [.queueStart "12:00:00" 0, .queueStart "12:00:00" 1,
          .finish "12:01:00" 0 (.failure "net::ERR_TIMED_OUT") 0]
          (State.init 2 0)))).inFlight = [1] :=
  ⟨(pump_drains_queue 1 _
      (PumpCall.release 0
        (Reachable.of_admissible [.queueStart "12:00:00" 0, .queueStart "12:00:00" 1,
          .finish "12:01:00" 0 (.failure "net::ERR_TIMED_OUT") 0]
          (Reachable.init 2 0) (by decide))
        (by decide)) "12:01:01").1, by decide⟩

/-- C11: the scheduler is work-conserving: in every state reachable from the initial
state (empty queue, `activeBrowsers` 0) by `queueStart` calls, countdown ticks, stages and
completions of pending executions, a non-empty `executionQueue` implies that
`activeBrowsers` equals `MAX_CONCURRENT_BROWSERS`; equivalently, while a slot is free no
worker waits. -/
theorem work_conserving (cap : Nat) (s : State) (h : Reachable cap s) :
    (s.executionQueue ≠ [] → s.activeBrowsers = (cap : Int)) ∧
    (s.activeBrowsers < (cap : Int) → s.executionQueue = []) := by
  have ha := h.inv.active_eq
  have hb : Busy cap s := h.busy
  have hfull : s.executionQueue ≠ [] → s.activeBrowsers = (cap : Int) := by
    intro hne
    rw [ha, hb hne]
  refine ⟨hfull, ?_⟩
  intro hlt
  by_contra hne
  have := hfull hne
  omega

/-- Witness for C11: ceiling 1, workers 0, 1, 2 started, worker 0 fails and releases its
slot: worker 1 takes the slot at once and worker 2 still waits with the slot taken. -/
theorem work_conserving_witness :
    (run 1 [.queueStart "12:00:00" 0, .queueStart "12:00:00" 1, .queueStart "12:00:00" 2,
        .finish "12:01:10" 0 (.failure "Timeout 60000ms exceeded") 0, .release "12:01:11" 0]
        (State.init 3 0)).executionQueue ≠ [] ∧
    (run 1 [.queueStart "12:00:00" 0, .queueStart "12:00:00" 1, .queueStart "12:00:00" 2,
        .finish "12:01:10" 0 (.failure "Timeout 60000ms exceeded") 0, .release "12:01:11" 0]
        (State.init 3 0)).activeBrowsers = ((1 : Nat) : Int) :=
  ⟨by decide,
    (work_conserving 1 _
      (Reachable.of_admissible
        [.queueStart "12:00:00" 0, .queueStart "12:00:00" 1, .queueStart "12:00:00" 2,
          .finish "12:01:10" 0 (.failure "Timeout 60000ms exceeded") 0,
          .release "12:01:11" 0]
        (Reachable.init 3 0) (by decide))).1 (by decide)⟩

end Miden
